import Mathlib

/-!
Verification of `codalab/model/bundle_model.py` (BundleModel): a shallow
embedding of the bundle-metadata layer — keyword search, permission
resolution, dependency-graph walking, worksheet updates and bundle CRUD —
together with theorems settling the specification claims.

The relational store is modelled as lists of typed rows (the spec treats the
storage gateway as an external transactional key-column store); each model
operation is a pure function over that state, returning `Except` where the
source raises.
-/

namespace BundleModel

/-- Modelled from the spec: the error taxonomy of section 7 (the module
`codalab.common` that declares these exception classes is not part of the
sources).  `UsageError` is a caller error or legitimate conflict;
`IntegrityError` is a fatal internal-consistency fault. -/
inductive Err where
  | usageError (msg : String)
  | integrityError (msg : String)
deriving Repr, DecidableEq

/-- Modelled from the spec: `precondition` from `codalab.common` — "strictly
more is an invariant violation (fails with an integrity error)": it raises
`IntegrityError` when the condition fails. -/
def precondition (cond : Bool) (msg : String) : Except Err Unit :=
  if cond then .ok () else .error (.integrityError msg)

/-- Modelled from the spec: permission levels are "integers on the
{NONE,READ,ALL} scale" with NONE < READ < ALL (`codalab.model.tables` is not
in the sources; only the ordering matters). -/
def GROUP_OBJECT_PERMISSION_NONE : Nat := 0

/-- Modelled from the spec: the READ permission level. -/
def GROUP_OBJECT_PERMISSION_READ : Nat := 1

/-- Modelled from the spec: the ALL permission level. -/
def GROUP_OBJECT_PERMISSION_ALL : Nat := 2

/-- Modelled from the spec: the RUNNING member of the bundle state enum
(`codalab.common.State` is not in the sources; the spec names the states
CREATED/RUNNING/READY/FAILED). -/
def State.RUNNING : String := "running"

/-! ## Row types (schemas of the tables named in spec section 6) -/

/-- A row of the `bundle` table.  `data_hash`, `command` and `owner_id` are
nullable. -/
structure BundleRow where
  id : Nat
  uuid : String
  bundle_type : String
  state : String
  command : Option String
  data_hash : Option String
  owner_id : Option String
deriving Repr, DecidableEq

/-- A row of the `bundle_dependency` table: the edge `child depends on
parent`, filling the named slot `child_path`. -/
structure BundleDependencyRow where
  child_uuid : String
  parent_uuid : String
  child_path : String
deriving Repr, DecidableEq

/-- A row of the `bundle_metadata` table. -/
structure BundleMetadataRow where
  bundle_uuid : String
  metadata_key : String
  metadata_value : String
deriving Repr, DecidableEq

/-- A row of the `worksheet_item` table (`type` is a Lean keyword, hence the
field name `item_type`). -/
structure WorksheetItemRow where
  id : Nat
  worksheet_uuid : String
  bundle_uuid : Option String
  subworksheet_uuid : Option String
  value : String
  item_type : String
  sort_key : Option Int
deriving Repr, DecidableEq

/-- A row of the `group` table. -/
structure GroupRow where
  uuid : String
  name : String
  owner_id : Option String
  user_defined : Bool
deriving Repr, DecidableEq

/-- A row of the `user_group` membership table. -/
structure UserGroupRow where
  user_id : String
  group_uuid : String
  is_admin : Bool
deriving Repr, DecidableEq

/-- A row of the `group_bundle_permission` table. -/
structure GroupBundlePermissionRow where
  group_uuid : String
  object_uuid : String
  permission : Nat
deriving Repr, DecidableEq

/-- The database state visible to BundleModel. -/
structure DB where
  bundles : List BundleRow
  bundle_dependencies : List BundleDependencyRow
  bundle_metadata : List BundleMetadataRow
  worksheet_items : List WorksheetItemRow
  groups : List GroupRow
  user_groups : List UserGroupRow
  group_bundle_permissions : List GroupBundlePermissionRow
deriving Repr, DecidableEq

/-- The model context: `public_group_uuid` is cached by
`_create_default_groups`; `root_user_id` is configured outside this source
file.  User ids are `Option String`, `none` meaning the anonymous user. -/
structure ModelCtx where
  public_group_uuid : String
  root_user_id : Option String
deriving Repr, DecidableEq

/-! ## Generic helpers (dict keys, SQL LIKE, sorting, Python int) -/

/-- First-occurrence deduplication with an accumulator of already-seen
elements. -/
def dedupKeysAux {α : Type} [DecidableEq α] (seen : List α) : List α → List α
  | [] => []
  | x :: xs =>
    if x ∈ seen then dedupKeysAux seen xs
    else x :: dedupKeysAux (x :: seen) xs

/-- First-occurrence deduplication: the key list of a Python dict (or the
element list of a Python set) built by inserting the elements in order. -/
def dedupKeys {α : Type} [DecidableEq α] (l : List α) : List α :=
  dedupKeysAux [] l

/-- SQL LIKE matching over character lists: `%` matches any sequence, `_`
matches a single character. -/
def likeMatch : List Char → List Char → Bool
  | [], [] => true
  | [], _ :: _ => false
  | '%' :: ps, [] => likeMatch ps []
  | '%' :: ps, c :: s => likeMatch ps (c :: s) || likeMatch ('%' :: ps) s
  | '_' :: _, [] => false
  | '_' :: ps, _ :: s => likeMatch ps s
  | _ :: _, [] => false
  | p :: ps, c :: s => (p = c) && likeMatch ps s
termination_by p s => (s.length, p.length)

/-- SQL LIKE on a nullable column value: `NULL LIKE pattern` is not true. -/
def sqlLike (pat : String) : Option String → Bool
  | none => false
  | some s => likeMatch pat.toList s.toList

/-- Insert into a list sorted by an integer key (ascending). -/
def insertSorted (key : α → Int) (x : α) : List α → List α
  | [] => [x]
  | y :: ys => if key x < key y then x :: y :: ys else y :: insertSorted key x ys

/-- Insertion sort by an integer key, modelling SQL ORDER BY (the claims
proved below depend only on membership, which any ordering preserves). -/
def sortByKey (key : α → Int) : List α → List α
  | [] => []
  | x :: xs => insertSorted key x (sortByKey key xs)

/-- Python `int(s)`: optional surrounding whitespace, optional sign, at
least one digit; `none` models the `ValueError` raised otherwise. -/
def pyInt (s : String) : Option Int :=
  let cs := s.trim.toList
  let signed : Int × List Char :=
    match cs with
    | '+' :: r => (1, r)
    | '-' :: r => (-1, r)
    | r => (1, r)
  if signed.2.isEmpty || !signed.2.all Char.isDigit then none
  else some (signed.1 * (signed.2.foldl (fun n c => n * 10 + (c.toNat - 48)) 0 : Nat))

/-- Numeric coercion of a (possibly NULL) column value, the `field * 1`
normalization used by `.sort`/`.sort-`/`.sum`: the leading integer prefix of
the string, `0` when there is none (MySQL-style string-to-number coercion
restricted to integers; no proved claim depends on the exact coercion). -/
def numCoerce : Option String → Int
  | none => 0
  | some s =>
    let signed : Int × List Char :=
      match s.toList with
      | '-' :: r => (-1, r)
      | r => (1, r)
    let digits := signed.2.takeWhile Char.isDigit
    signed.1 * (digits.foldl (fun n c => n * 10 + (c.toNat - 48)) 0 : Nat)

/-- Python `dict.get` over an association-list owner map: `none` both when
the key is absent and when the stored owner id is null. -/
def ownerGet (owner_ids : List (String × Option String)) (k : String) : Option String :=
  match owner_ids.find? (fun kv => kv.1 = k) with
  | none => none
  | some kv => kv.2

/-! ## make_clause / make_kwargs_clause -/

/-- The kinds of value accepted by `make_clause`: a plain value (equality), a
list/set/tuple (IN clause), or a `LikeQuery` (LIKE clause). -/
inductive FilterValue where
  | val (v : Option String)
  | coll (vs : List (Option String))
  | likeq (pat : String)
deriving Repr

/-- `BundleModel.make_clause`: compile one column filter to a row predicate.
An empty collection yields the literal `False` clause (matches nothing). -/
def make_clause {ρ : Type} (key : ρ → Option String) (value : FilterValue) : ρ → Bool :=
  match value with
  | .coll vs => if vs.isEmpty then fun _ => false else fun r => vs.contains (key r)
  | .likeq pat => fun r => sqlLike pat (key r)
  | .val v => fun r => key r == v

/-- `BundleModel.make_kwargs_clause`: the conjunction of `make_clause` over
a kwargs dict (seeded with `true()` as in the source). -/
def make_kwargs_clause {ρ : Type} (kwargs : List ((ρ → Option String) × FilterValue)) (r : ρ) : Bool :=
  (true :: kwargs.map (fun kv => make_clause kv.1 kv.2 r)).all id

/-! ## Worksheet update protocol (`update_worksheet`) -/

/-- The state of the `worksheet_item` table together with the storage
engine's auto-increment cursor for freshly inserted rows. -/
structure WsState where
  items : List WorksheetItemRow
  next_id : Nat
deriving Repr, DecidableEq

/-- A caller-supplied replacement item: the
`(bundle_uuid, subworksheet_uuid, value, type)` tuple of the source. -/
structure NewItem where
  bundle_uuid : Option String
  subworksheet_uuid : Option String
  value : String
  item_type : String
deriving Repr, DecidableEq

/-- A `worksheet_item` insert dict (no id yet: the storage engine assigns
one on insert). -/
structure WorksheetItemInsert where
  worksheet_uuid : String
  bundle_uuid : Option String
  subworksheet_uuid : Option String
  value : String
  item_type : String
  sort_key : Option Int
deriving Repr, DecidableEq

/-- Materialize an insert dict as a row with the id the engine assigned. -/
def mkItemRow (id : Nat) (v : WorksheetItemInsert) : WorksheetItemRow :=
  { id := id, worksheet_uuid := v.worksheet_uuid, bundle_uuid := v.bundle_uuid,
    subworksheet_uuid := v.subworksheet_uuid, value := v.value,
    item_type := v.item_type, sort_key := v.sort_key }

/-- Multi-row insert (`do_multirow_insert`): the auto-increment engine
appends the rows with consecutive fresh ids. -/
def insertItemRows (s : WsState) (vals : List WorksheetItemInsert) : WsState :=
  { items := s.items ++ vals.enum.map (fun kv => mkItemRow (s.next_id + kv.1) kv.2),
    next_id := s.next_id + vals.length }

/-- The `new_item_values` list comprehension of `update_worksheet`: the item
at 0-based position `i` receives sort key `last_item_id + i - len(new_items)`. -/
def new_item_values (worksheet_uuid : String) (last_item_id : Int)
    (new_items : List NewItem) : List WorksheetItemInsert :=
  new_items.enum.map (fun iv =>
    { worksheet_uuid := worksheet_uuid,
      bundle_uuid := iv.2.bundle_uuid,
      subworksheet_uuid := iv.2.subworksheet_uuid,
      value := iv.2.value,
      item_type := iv.2.item_type,
      sort_key := some (last_item_id + iv.1 - new_items.length) })

/-- The delete clause of `update_worksheet`: items of this worksheet with
database id at most `last_item_id`. -/
def updateClause (worksheet_uuid : String) (last_item_id : Int)
    (r : WorksheetItemRow) : Bool :=
  r.worksheet_uuid == worksheet_uuid && (r.id : Int) ≤ last_item_id

/-- `BundleModel.update_worksheet`: delete the prefix of items with id ≤
`last_item_id`, check the optimistic count, insert the replacement items.
Raising inside the transaction rolls the whole operation back, which the
`Except.error` results model. -/
def update_worksheet (s : WsState) (worksheet_uuid : String) (last_item_id : Int)
    (length : Nat) (new_items : List NewItem) : Except Err WsState := do
  let deleted := s.items.filter (updateClause worksheet_uuid last_item_id)
  let kept := s.items.filter (fun r => !updateClause worksheet_uuid last_item_id r)
  precondition (deleted.length ≤ length)
    ("Found extra items for worksheet " ++ worksheet_uuid)
  if deleted.length < length then
    throw (.usageError ("Worksheet " ++ worksheet_uuid ++ " was updated concurrently!"))
  return insertItemRows { s with items := kept }
    (new_item_values worksheet_uuid last_item_id new_items)

/-- The observable item list after an `update_worksheet` call: the
transaction commits on success and rolls back on any raise. -/
def update_worksheet_items_after (s : WsState) (worksheet_uuid : String)
    (last_item_id : Int) (length : Nat) (new_items : List NewItem) :
    List WorksheetItemRow :=
  match update_worksheet s worksheet_uuid last_item_id length new_items with
  | .ok s2 => s2.items
  | .error _ => s.items

/-! ## Dependency graph walker -/

/-- `BundleModel.get_children_uuids`: for each given uuid, the children of
the dependency edges whose parent it is, as a dict in key-insertion order
(duplicate keys collapse as in a Python dict). -/
def get_children_uuids (deps : List BundleDependencyRow) (uuids : List String) :
    List (String × List String) :=
  let rows := deps.filter (fun d => uuids.contains d.parent_uuid)
  (dedupKeys uuids).map (fun u =>
    (u, (rows.filter (fun d => d.parent_uuid = u)).map (fun d => d.child_uuid)))

/-- Visit one child: skip it if already visited, otherwise append it to
both the new frontier and the visited list (the body of the inner loop of
`get_self_and_descendants`). -/
def bfsVisit (acc : List String × List String) (uuid : String) :
    List String × List String :=
  if uuid ∈ acc.2 then acc else (acc.1 ++ [uuid], acc.2 ++ [uuid])

/-- One iteration of the `while` loop of `get_self_and_descendants`: walk
the children of the frontier, appending unvisited ones to both the new
frontier and the visited list.  Returns `(new_frontier, visited)`. -/
def bfs_round (deps : List BundleDependencyRow) (frontier visited : List String) :
    List String × List String :=
  (get_children_uuids deps frontier).foldl
    (fun acc kv => kv.2.foldl bfsVisit acc)
    ([], visited)

/-- The loop of `get_self_and_descendants`, by recursion on the remaining
depth. -/
def gsdAux (deps : List BundleDependencyRow) (frontier visited : List String) :
    Nat → List String
  | 0 => visited
  | depth + 1 =>
    if frontier.isEmpty then visited
    else
      let fv := bfs_round deps frontier visited
      gsdAux deps fv.1 fv.2 depth

/-- `BundleModel.get_self_and_descendants`: breadth-first closure of the
seed uuids under child edges, up to `depth` rounds. -/
def get_self_and_descendants (deps : List BundleDependencyRow) (uuids : List String)
    (depth : Nat) : List String :=
  gsdAux deps uuids uuids depth

/-! ## Permission resolver -/

/-- An entry of the `batch_get_group_permissions` result (the group name
comes from the join with the `group` table). -/
structure PermEntry where
  group_uuid : String
  group_name : String
  permission : Nat
deriving Repr, DecidableEq

/-- The join of `batch_get_group_permissions`: each permission row on one
of the given objects, paired (per matching `group` row) with its group
name, tagged by object uuid. -/
def groupPermJoinRows (db : DB) (object_uuids : List String) :
    List (String × PermEntry) :=
  (db.group_bundle_permissions.filter
      (fun p => object_uuids.contains p.object_uuid)).flatMap
    (fun p => (db.groups.filter (fun g => g.uuid = p.group_uuid)).map
      (fun g => (p.object_uuid,
        ({ group_uuid := p.group_uuid, group_name := g.name,
           permission := p.permission } : PermEntry))))

/-- `BundleModel.batch_get_group_permissions` restricted to the bundle
permission table: the permission rows on the given objects, inner-joined
with the `group` table for the group name, grouped by object uuid (the
`defaultdict` in row order). -/
def batch_get_group_permissions (db : DB) (object_uuids : List String) :
    List (String × List PermEntry) :=
  (dedupKeys ((groupPermJoinRows db object_uuids).map (fun r => r.1))).map
    (fun u => (u, ((groupPermJoinRows db object_uuids).filter
      (fun r => r.1 = u)).map (fun r => r.2)))

/-- `BundleModel.batch_get_user_in_group` specialized to the
`user_id=...` kwargs used by `_get_user_groups`. -/
def batch_get_user_in_group (db : DB) (user_id : String) : List UserGroupRow :=
  db.user_groups.filter (fun r => r.user_id = user_id)

/-- `BundleModel._get_user_groups`: the public group, plus the explicit
memberships when the user is not anonymous. -/
def _get_user_groups (db : DB) (ctx : ModelCtx) (user_id : Option String) :
    List String :=
  ctx.public_group_uuid ::
    (match user_id with
     | none => []
     | some u => (batch_get_user_in_group db u).map (fun r => r.group_uuid))

/-- A functional update of the `object_permissions` dict (its key set is the
given object uuids; the theorems below only read keys of that set). -/
def dictSet (f : String → Nat) (k : String) (v : Nat) : String → Nat :=
  fun k2 => if k2 = k then v else f k2

/-- The owner/root test of the first loop of `get_user_permissions`. -/
def ownerRootCond (ctx : ModelCtx) (user_id : Option String)
    (owner_ids : List (String × Option String)) (object_uuid : String) : Bool :=
  user_id == ownerGet owner_ids object_uuid || user_id == ctx.root_user_id

/-- The body of the first loop of `get_user_permissions`: grant ALL to an
owned (or root-visible) object, otherwise queue it as remaining. -/
def ownerPass (ctx : ModelCtx) (user_id : Option String)
    (owner_ids : List (String × Option String))
    (acc : (String → Nat) × List String) (object_uuid : String) :
    (String → Nat) × List String :=
  if ownerRootCond ctx user_id owner_ids object_uuid then
    (dictSet acc.1 object_uuid GROUP_OBJECT_PERMISSION_ALL, acc.2)
  else (acc.1, acc.2 ++ [object_uuid])

/-- The body of the inner row loop of `get_user_permissions`: raise the
object permission by a matching group row. -/
def groupRowPass (user_groups : List String) (obj : String)
    (perms : String → Nat) (row : PermEntry) : String → Nat :=
  if user_groups.contains row.group_uuid then
    dictSet perms obj (max (perms obj) row.permission)
  else perms

/-- The body of the outer per-object loop of `get_user_permissions`. -/
def groupPass (user_groups : List String) (perms : String → Nat)
    (kv : String × List PermEntry) : String → Nat :=
  kv.2.foldl (groupRowPass user_groups kv.1) perms

/-- `BundleModel.get_user_permissions` (bundle-table instance): objects
owned by the user, or any object when the user is root, get ALL; the rest
accumulate the maximum of the permission rows whose group the user belongs
to.  The returned function is the `object_permissions` dict. -/
def get_user_permissions (db : DB) (ctx : ModelCtx) (user_id : Option String)
    (object_uuids : List String) (owner_ids : List (String × Option String)) :
    String → Nat :=
  let init : (String → Nat) × List String :=
    (fun _ => GROUP_OBJECT_PERMISSION_NONE, [])
  let pass1 := object_uuids.foldl (ownerPass ctx user_id owner_ids) init
  if pass1.2.length > 0 then
    let result := batch_get_group_permissions db pass1.2
    let user_groups := _get_user_groups db ctx user_id
    result.foldl (groupPass user_groups) pass1.1
  else pass1.1

/-- The group set named by claim C2, written from the claim: the public
group implicitly included, plus the groups of the principal's explicit
membership rows. -/
def spec_principal_groups (db : DB) (ctx : ModelCtx) (user_id : Option String) :
    List String :=
  ctx.public_group_uuid ::
    (db.user_groups.filter (fun r => some r.user_id == user_id)).map
      (fun r => r.group_uuid)

/-- The per-object permission value prescribed by claim C2, written from the
claim's words: ALL for owner or root, otherwise the maximum of NONE and the
levels of all permission rows on the object whose group is in the
principal's group set. -/
def spec_C2_permission (db : DB) (ctx : ModelCtx) (user_id : Option String)
    (owner_ids : List (String × Option String)) (object_uuid : String) : Nat :=
  if user_id == ownerGet owner_ids object_uuid || user_id == ctx.root_user_id then
    GROUP_OBJECT_PERMISSION_ALL
  else
    ((db.group_bundle_permissions.filter
        (fun p => p.object_uuid == object_uuid &&
          (spec_principal_groups db ctx user_id).contains p.group_uuid)).map
      (fun p => p.permission)).foldr max GROUP_OBJECT_PERMISSION_NONE

/-- Claim C2 amended: as `spec_C2_permission`, except that only permission
rows whose group also has a row in the `group` table count (the
implementation fetches permission rows through an inner join with `group`). -/
def spec_C2_permission_amended (db : DB) (ctx : ModelCtx) (user_id : Option String)
    (owner_ids : List (String × Option String)) (object_uuid : String) : Nat :=
  if user_id == ownerGet owner_ids object_uuid || user_id == ctx.root_user_id then
    GROUP_OBJECT_PERMISSION_ALL
  else
    ((db.group_bundle_permissions.filter
        (fun p => p.object_uuid == object_uuid &&
          db.groups.any (fun g => g.uuid == p.group_uuid) &&
          (spec_principal_groups db ctx user_id).contains p.group_uuid)).map
      (fun p => p.permission)).foldr max GROUP_OBJECT_PERMISSION_NONE

/-! ## Bundle CRUD: batch_get_bundles / get_bundle / batch_update_bundles /
delete_bundles -/

/-- An in-memory bundle assembled by `batch_get_bundles`: the column dict of
the (last) row with a given uuid, plus the dependency and metadata rows
attached to that uuid.  Bundle-subclass construction and field validation
are excluded by the spec as an external collaborator and modelled as the
identity. -/
structure BundleFull where
  row : BundleRow
  dependencies : List BundleDependencyRow
  metadata : List BundleMetadataRow
deriving Repr, DecidableEq

/-- `BundleModel.batch_get_bundles`: fetch the rows matching the kwargs
clause, collapse them into a uuid-keyed dict (later rows overwrite earlier
ones with the same uuid), attach dependency and metadata rows, and return
the bundles sorted by row id. -/
def batch_get_bundles (db : DB)
    (kwargs : List ((BundleRow → Option String) × FilterValue)) :
    List BundleFull :=
  let bundle_rows := db.bundles.filter (make_kwargs_clause kwargs)
  if bundle_rows.isEmpty then []
  else
    let uuids := bundle_rows.map (fun r => r.uuid)
    let dependency_rows := db.bundle_dependencies.filter
      (fun d => uuids.contains d.child_uuid)
    let metadata_rows := db.bundle_metadata.filter
      (fun m => uuids.contains m.bundle_uuid)
    let keyed : List BundleFull := (dedupKeys uuids).map (fun u =>
      { row := ((bundle_rows.filter (fun r => r.uuid = u)).getLastD
          { id := 0, uuid := u, bundle_type := "", state := "", command := none,
            data_hash := none, owner_id := none }),
        dependencies := dependency_rows.filter (fun d => d.child_uuid = u),
        metadata := metadata_rows.filter (fun m => m.bundle_uuid = u) })
    sortByKey (fun b => (b.row.id : Int)) keyed

/-- `BundleModel.get_bundle`: UsageError when no row matches, IntegrityError
when more than one assembled bundle comes back (the source's duplicate
check), the bundle otherwise. -/
def get_bundle (db : DB) (uuid : String) : Except Err BundleFull :=
  match batch_get_bundles db [(fun r => some r.uuid, FilterValue.val (some uuid))] with
  | [] => .error (.usageError ("Could not find bundle with uuid " ++ uuid))
  | [b] => .ok b
  | _ :: _ :: _ => .error (.integrityError ("Found multiple bundles with uuid " ++ uuid))

/-- A column update dict for `batch_update_bundles` / `update_in_memory`:
`some v` sets the column to `v`.  `id` and `uuid` are absent, which is what
the source's `precondition` enforces. -/
structure BundleColUpdate where
  bundle_type : Option String := none
  state : Option String := none
  command : Option (Option String) := none
  data_hash : Option (Option String) := none
  owner_id : Option (Option String) := none
deriving Repr, DecidableEq

/-- Apply a column update dict to a bundle row (also the model of
`Bundle.update_in_memory`, a diff-based partial update per the spec). -/
def applyColUpdate (r : BundleRow) (u : BundleColUpdate) : BundleRow :=
  { r with
    bundle_type := u.bundle_type.getD r.bundle_type,
    state := u.state.getD r.state,
    command := u.command.getD r.command,
    data_hash := u.data_hash.getD r.data_hash,
    owner_id := u.owner_id.getD r.owner_id }

/-- The row clause of `batch_update_bundles`: id among the distinct supplied
bundle ids, conjoined with the optional kwargs condition. -/
def batchUpdateClause (bundle_ids : List Nat)
    (condition : Option (List ((BundleRow → Option String) × FilterValue)))
    (r : BundleRow) : Bool :=
  bundle_ids.contains r.id &&
    (match condition with
     | some kwargs => make_kwargs_clause kwargs r
     | none => true)

/-- `BundleModel.batch_update_bundles`: run the UPDATE, compare the matched
row count with the number of distinct supplied bundle ids, and update the
in-memory bundles only on success.  The transaction block exits normally in
both cases, so the row updates commit either way; the function returns
`(success, table rows, in-memory bundles)`. -/
def batch_update_bundles (rows : List BundleRow) (bundles : List BundleRow)
    (update : BundleColUpdate)
    (condition : Option (List ((BundleRow → Option String) × FilterValue))) :
    Bool × List BundleRow × List BundleRow :=
  if bundles.isEmpty then (true, rows, bundles)
  else
    let bundle_ids := dedupKeys (bundles.map (fun b => b.id))
    let clause := batchUpdateClause bundle_ids condition
    let rowcount := (rows.filter clause).length
    let rows2 := rows.map (fun r => if clause r then applyColUpdate r update else r)
    let success := rowcount == bundle_ids.length
    (success, rows2, if success then bundles.map (fun b => applyColUpdate b update) else bundles)

/-- `BundleModel._check_not_running`: UsageError when any of the bundles to
delete is in state RUNNING. -/
def _check_not_running (db : DB) (uuids : List String) : Except Err Unit :=
  let running_uuids := (db.bundles.filter
      (fun b => uuids.contains b.uuid && b.state == State.RUNNING)).map
    (fun b => b.uuid)
  if running_uuids.length > 0 then
    .error (.usageError ("Cannot delete running bundles: " ++ String.intercalate " " running_uuids))
  else .ok ()

/-- The first four DELETE statements of `delete_bundles`, in source order:
permission rows, worksheet items, metadata, dependency edges (by child) —
everything except the bundle rows themselves. -/
def delete_bundles_dependents (db : DB) (uuids : List String) : DB :=
  { db with
    group_bundle_permissions := db.group_bundle_permissions.filter
      (fun p => !uuids.contains p.object_uuid),
    worksheet_items := db.worksheet_items.filter
      (fun it => !(match it.bundle_uuid with
                   | some u => uuids.contains u
                   | none => false)),
    bundle_metadata := db.bundle_metadata.filter
      (fun m => !uuids.contains m.bundle_uuid),
    bundle_dependencies := db.bundle_dependencies.filter
      (fun d => !uuids.contains d.child_uuid) }

/-- `BundleModel.delete_bundles`: refuse when a bundle is RUNNING, then
delete dependent rows in reverse creation order and the bundle rows last. -/
def delete_bundles (db : DB) (uuids : List String) : Except Err DB := do
  _check_not_running db uuids
  let db2 := delete_bundles_dependents db uuids
  return { db2 with bundles := db2.bundles.filter (fun b => !uuids.contains b.uuid) }

/-! ## Query compiler (search_bundle_uuids)

The generated SQL selects from the cross product of every table the final
WHERE clause references (always `bundle`; `bundle_dependency`,
`worksheet_item`, `bundle_metadata` and `group_bundle_permission` only when
some top-level clause mentions them — every top-level clause on the same
table constrains the same joined row, since the source reuses one table
object).  A `Clause` therefore carries both the predicate and the set of
tables it references, and the result set ranges over environments picking
one row from each referenced table. -/

/-- Python-level exceptions escaping `search_bundle_uuids`: `int(value)` on
a malformed `.offset`/`.limit` value, and `result[0]` on an empty result. -/
inductive SearchErr where
  | valueError
  | indexError
deriving Repr, DecidableEq

/-- The value of `search_bundle_uuids`: a uuid list, or a single number in
count/aggregate mode. -/
inductive SearchResult where
  | uuids (l : List String)
  | num (n : Int)
deriving Repr, DecidableEq

/-- The condition `make_condition` builds for a field: the sentinel
`true()` (for `.sort`/`.sort-`/`.sum` values), a LIKE test, or equality. -/
inductive SCond where
  | ctrue
  | like (pat : String)
  | eq (v : String)
deriving Repr, DecidableEq

/-- Evaluate an `SCond` against a (possibly NULL) column value. -/
def SCond.holds : SCond → Option String → Bool
  | .ctrue, _ => true
  | .like pat, v => sqlLike pat v
  | .eq x, v => v == some x

/-- Directly searchable `bundle` columns. -/
inductive BCol where
  | bundle_type | id | uuid | data_hash | state | command | owner_id
deriving Repr, DecidableEq

/-- Read a `bundle` column as a string value (the `id` integer column is
compared through the engine's coercion, modelled as decimal rendering). -/
def evalBCol : BCol → BundleRow → Option String
  | .bundle_type, b => some b.bundle_type
  | .id, b => some (toString b.id)
  | .uuid, b => some b.uuid
  | .data_hash, b => b.data_hash
  | .state, b => some b.state
  | .command, b => b.command
  | .owner_id, b => b.owner_id

/-- A column reference usable as a sort or sum key. -/
inductive SCol where
  | bcol (c : BCol)
  | dep_parent_uuid
  | item_worksheet_uuid
  | meta_value
deriving Repr, DecidableEq

/-- The tables (beyond `bundle`) referenced by a clause. -/
structure Uses where
  dep : Bool := false
  item : Bool := false
  meta : Bool := false
  gbp : Bool := false
deriving Repr, DecidableEq

/-- Union of table-reference sets. -/
def Uses.union (a b : Uses) : Uses :=
  { dep := a.dep || b.dep, item := a.item || b.item,
    meta := a.meta || b.meta, gbp := a.gbp || b.gbp }

/-- An environment: the bundle row under consideration plus one row of each
joined table (`none` when the table is not part of the query). -/
structure Env where
  b : BundleRow
  dep : Option BundleDependencyRow := none
  item : Option WorksheetItemRow := none
  meta : Option BundleMetadataRow := none
  gbp : Option GroupBundlePermissionRow := none

/-- A compiled WHERE clause: its referenced tables and its predicate. -/
structure Clause where
  uses : Uses := {}
  pred : Env → Bool

/-- Variadic `and_`. -/
def andAll (cs : List Clause) : Clause :=
  { uses := (cs.map (fun c => c.uses)).foldl Uses.union {},
    pred := fun e => cs.all (fun c => c.pred e) }

/-- Variadic `or_`. -/
def orAll (cs : List Clause) : Clause :=
  { uses := (cs.map (fun c => c.uses)).foldl Uses.union {},
    pred := fun e => cs.any (fun c => c.pred e) }

/-- Evaluate a sort/sum column in an environment (an unjoined table reads
as NULL). -/
def evalSCol : SCol → Env → Option String
  | .bcol c, e => evalBCol c e.b
  | .dep_parent_uuid, e => e.dep.map (fun d => d.parent_uuid)
  | .item_worksheet_uuid, e => e.item.map (fun it => it.worksheet_uuid)
  | .meta_value, e => e.meta.map (fun m => m.metadata_value)

/-- The mutable out-parameters of the keyword loop. -/
structure LoopState where
  clauses : List Clause := []
  offset : Int := 0
  limit : Option Int := some 10
  count : Bool := false
  sort_key : Option (SCol × Bool) := none
  sum_key : Option SCol := none

/-- The `make_condition` closure: `.sort`, `.sort-` and `.sum` set the sort
or sum key and return the sentinel `true()`; a value containing `%` builds a
LIKE condition; anything else an equality. -/
def make_condition (st : LoopState) (field : SCol) (value : String) :
    SCond × LoopState :=
  if value == ".sort" then (.ctrue, { st with sort_key := some (field, false) })
  else if value == ".sort-" then (.ctrue, { st with sort_key := some (field, true) })
  else if value == ".sum" then (.ctrue, { st with sum_key := some field })
  else if value.contains '%' then (.like value, st)
  else (.eq value, st)

/-- Characters `CONDITION_REGEX` allows in a key: `[.\w/]`. -/
def isKeyChar (c : Char) : Bool :=
  c.isAlphanum || c == '_' || c == '.' || c == '/'

/-- `CONDITION_REGEX.match`: split `key=value` where the key is a nonempty
run of key characters anchored at the start and the value is everything
after the first `=` that follows it. -/
def matchCondition (s : String) : Option (String × String) :=
  let cs := s.toList
  let key := cs.takeWhile isKeyChar
  match key, cs.dropWhile isKeyChar with
  | [], _ => none
  | _ :: _, '=' :: value => some (String.mk key, String.mk value)
  | _ :: _, _ => none

/-- The `shortcuts` table. -/
def shortcut (k : String) : String :=
  if k == "type" then "bundle_type"
  else if k == "size" then "data_size"
  else if k == "worksheet" then "host_worksheet"
  else k

/-- A condition on one bundle column as a clause. -/
def bundleColClause (c : BCol) (cond : SCond) : Clause :=
  { pred := fun e => cond.holds (evalBCol c e.b) }

/-- The clause for a `dependency=value` keyword: a join against the
dependency row when the condition is the sentinel `true()`, a membership
subquery otherwise. -/
def dependencyClause (db : DB) (cond : SCond) : Clause :=
  if cond == .ctrue then
    { uses := { dep := true },
      pred := fun e =>
        match e.dep with
        | some d => d.child_uuid == e.b.uuid
        | none => false }
  else
    { pred := fun e =>
        ((db.bundle_dependencies.filter
            (fun d => cond.holds (some d.parent_uuid))).map
          (fun d => d.child_uuid)).contains e.b.uuid }

/-- The clause for a `dependency/<name>=value` keyword: as
`dependencyClause`, additionally matching the dependency's `child_path`. -/
def dependencyNameClause (db : DB) (name : String) (cond : SCond) : Clause :=
  if cond == .ctrue then
    { uses := { dep := true },
      pred := fun e =>
        match e.dep with
        | some d => d.child_uuid == e.b.uuid && d.child_path == name
        | none => false }
  else
    { pred := fun e =>
        ((db.bundle_dependencies.filter
            (fun d => d.child_path == name && cond.holds (some d.parent_uuid))).map
          (fun d => d.child_uuid)).contains e.b.uuid }

/-- The clause for a `host_worksheet=value` keyword. -/
def hostWorksheetClause (db : DB) (cond : SCond) : Clause :=
  if cond == .ctrue then
    { uses := { item := true },
      pred := fun e =>
        match e.item with
        | some it => it.bundle_uuid == some e.b.uuid
        | none => false }
  else
    { pred := fun e =>
        ((db.worksheet_items.filter
            (fun it => cond.holds (some it.worksheet_uuid))).map
          (fun it => it.bundle_uuid)).contains (some e.b.uuid) }

/-- The clause for a metadata keyword `key=value`. -/
def metadataClause (db : DB) (key : String) (cond : SCond) : Clause :=
  if cond == .ctrue then
    { uses := { meta := true },
      pred := fun e =>
        match e.meta with
        | some m => e.b.uuid == m.bundle_uuid && m.metadata_key == key
        | none => false }
  else
    { pred := fun e =>
        ((db.bundle_metadata.filter
            (fun m => m.metadata_key == key && cond.holds (some m.metadata_value))).map
          (fun m => m.bundle_uuid)).contains e.b.uuid }

/-- The `.orphan` clause: bundles that appear on no worksheet (complement
of the with-hosts subquery; the subquery correlates on the outer bundle
table, which over bundle rows is the membership test written here). -/
def orphanClause (db : DB) : Clause :=
  { pred := fun e =>
      !(((db.bundles.filter (fun b2 =>
            db.worksheet_items.any (fun it => it.bundle_uuid == some b2.uuid))).map
          (fun b2 => b2.uuid)).contains e.b.uuid) }

/-- The general-keyword clause: uuid, command, or any metadata value
matches `%keyword%`. -/
def generalKeywordClause (db : DB) (keyword : String) : Clause :=
  { pred := fun e =>
      sqlLike ("%" ++ keyword ++ "%") (some e.b.uuid) ||
      sqlLike ("%" ++ keyword ++ "%") e.b.command ||
      ((db.bundle_metadata.filter
          (fun m => sqlLike ("%" ++ keyword ++ "%") (some m.metadata_value))).map
        (fun m => m.bundle_uuid)).contains e.b.uuid }

/-- Process one keyword of the search query, threading the loop state. -/
def processKeyword (db : DB) (st : LoopState) (keyword0 : String) :
    Except SearchErr LoopState := do
  let keyword := keyword0.replace ".*" "%"
  match matchCondition keyword with
  | some kv =>
    let key := shortcut kv.1
    let value := kv.2
    if key == "bundle_type" then
      let c := make_condition st (.bcol .bundle_type) value
      return { c.2 with clauses := c.2.clauses ++ [bundleColClause .bundle_type c.1] }
    else if key == "id" then
      let c := make_condition st (.bcol .id) value
      return { c.2 with clauses := c.2.clauses ++ [bundleColClause .id c.1] }
    else if key == "uuid" then
      let c := make_condition st (.bcol .uuid) value
      return { c.2 with clauses := c.2.clauses ++ [bundleColClause .uuid c.1] }
    else if key == "data_hash" then
      let c := make_condition st (.bcol .data_hash) value
      return { c.2 with clauses := c.2.clauses ++ [bundleColClause .data_hash c.1] }
    else if key == "state" then
      let c := make_condition st (.bcol .state) value
      return { c.2 with clauses := c.2.clauses ++ [bundleColClause .state c.1] }
    else if key == "command" then
      let c := make_condition st (.bcol .command) value
      return { c.2 with clauses := c.2.clauses ++ [bundleColClause .command c.1] }
    else if key == "owner_id" then
      let c := make_condition st (.bcol .owner_id) value
      return { c.2 with clauses := c.2.clauses ++ [bundleColClause .owner_id c.1] }
    else if key == "dependency" then
      let c := make_condition st .dep_parent_uuid value
      return { c.2 with clauses := c.2.clauses ++ [dependencyClause db c.1] }
    else if key.startsWith "dependency/" then
      let name := key.drop 11
      let c := make_condition st .dep_parent_uuid value
      return { c.2 with clauses := c.2.clauses ++ [dependencyNameClause db name c.1] }
    else if key == "host_worksheet" then
      let c := make_condition st .item_worksheet_uuid value
      return { c.2 with clauses := c.2.clauses ++ [hostWorksheetClause db c.1] }
    else if key == ".offset" then
      match pyInt value with
      | some n => return { st with offset := n }
      | none => throw .valueError
    else if key == ".limit" then
      match pyInt value with
      | some n => return { st with limit := some n }
      | none => throw .valueError
    else
      let c := make_condition st .meta_value value
      return { c.2 with clauses := c.2.clauses ++ [metadataClause db key c.1] }
  | none =>
    if keyword == ".count" then
      return { st with count := true, limit := none }
    else if keyword == ".orphan" then
      return { st with clauses := st.clauses ++ [orphanClause db] }
    else
      return { st with clauses := st.clauses ++ [generalKeywordClause db keyword] }

/-- The rows of a table available to an environment: every row when the
table is referenced by the clause, the single unjoined placeholder
otherwise. -/
def optRows {α : Type} (used : Bool) (rows : List α) : List (Option α) :=
  if used then rows.map some else [none]

/-- All environments for one bundle row: the cross product over the tables
the clause references. -/
def envsFor (db : DB) (u : Uses) (b : BundleRow) : List Env :=
  (optRows u.dep db.bundle_dependencies).flatMap (fun d =>
    (optRows u.item db.worksheet_items).flatMap (fun it =>
      (optRows u.meta db.bundle_metadata).flatMap (fun m =>
        (optRows u.gbp db.group_bundle_permissions).map (fun p =>
          { b := b, dep := d, item := it, meta := m, gbp := p }))))

/-- OFFSET: drop the first rows (a negative offset is ignored, as SQLite
does). -/
def applyOffset {α : Type} (off : Int) (l : List α) : List α :=
  l.drop off.toNat

/-- LIMIT: keep at most the given number of rows (`none` and negative
values mean no limit, as SQLite does). -/
def applyLimit {α : Type} (lim : Option Int) (l : List α) : List α :=
  match lim with
  | none => l
  | some n => if n < 0 then l else l.take n.toNat

/-- The access clause conjoined for non-root principals: owner, or a
permission row of level at least READ held by the public group or one of
the principal's groups. -/
def access_clause (db : DB) (ctx : ModelCtx) (user_id : Option String) : Clause :=
  orAll
    [{ pred := fun e => e.b.owner_id == user_id },
     { uses := { gbp := true },
       pred := fun e =>
         match e.gbp with
         | some p =>
           p.object_uuid == e.b.uuid &&
           (p.group_uuid == ctx.public_group_uuid ||
            ((db.user_groups.filter (fun r => some r.user_id == user_id)).map
              (fun r => r.group_uuid)).contains p.group_uuid) &&
           decide (GROUP_OBJECT_PERMISSION_READ ≤ p.permission)
         | none => false }]

/-- The satisfying environments of the final clause, in table order. -/
def searchEnvs (db : DB) (clause : Clause) : List Env :=
  db.bundles.flatMap (fun b => (envsFor db clause.uses b).filter clause.pred)

/-- The final WHERE clause: the conjunction of the per-keyword clauses,
further conjoined with the access clause unless the principal is root. -/
def search_clause (db : DB) (ctx : ModelCtx) (user_id : Option String)
    (st : LoopState) : Clause :=
  let clause0 := andAll st.clauses
  if user_id ≠ ctx.root_user_id then
    andAll [clause0, access_clause db ctx user_id]
  else clause0

/-- The satisfying environments, ordered by the sort key when one is set.
ORDER BY on a column outside the DISTINCT select list is engine-dependent;
it is modelled as a stable sort of the satisfying rows before
deduplication, which any membership statement is insensitive to. -/
def search_sorted_envs (db : DB) (ctx : ModelCtx) (user_id : Option String)
    (st : LoopState) : List Env :=
  match st.sort_key with
  | some cd =>
    sortByKey
      (fun e => (if cd.2 then (-1 : Int) else 1) * numCoerce (evalSCol cd.1 e))
      (searchEnvs db (search_clause db ctx user_id st))
  | none => searchEnvs db (search_clause db ctx user_id st)

/-- The DISTINCT, offset and limited uuid result column. -/
def search_uuid_rows (db : DB) (ctx : ModelCtx) (user_id : Option String)
    (st : LoopState) : List String :=
  applyLimit st.limit (applyOffset st.offset
    (dedupKeys ((search_sorted_envs db ctx user_id st).map (fun e => e.b.uuid))))

/-- Build and run the final query from the loop state: conjoin the access
clause for non-root principals, then evaluate the aggregate, count, or
distinct ordered uuid list. -/
def search_finish (db : DB) (ctx : ModelCtx) (user_id : Option String)
    (st : LoopState) : Except SearchErr SearchResult :=
  match st.sum_key with
  | some c =>
    let s : Int := ((searchEnvs db (search_clause db ctx user_id st)).map
      (fun e => numCoerce (evalSCol c e))).foldl (· + ·) 0
    let rows := applyLimit st.limit (applyOffset st.offset [s])
    if st.count then .ok (.num rows.length)
    else
      match rows with
      | r :: _ => .ok (.num r)
      | [] => .error .indexError
  | none =>
    let uuids := search_uuid_rows db ctx user_id st
    if st.count then .ok (.num uuids.length) else .ok (.uuids uuids)

/-- `BundleModel.search_bundle_uuids`: classify each keyword into clauses
and out-parameters, then run the composed, permission-scoped query.
`worksheet_uuid` is unused, as in the source. -/
def search_bundle_uuids (db : DB) (ctx : ModelCtx) (user_id : Option String)
    (_worksheet_uuid : Option String) (keywords : List String) :
    Except SearchErr SearchResult := do
  let st ← keywords.foldlM (processKeyword db) {}
  search_finish db ctx user_id st

/-! ## Concrete instances used by witnesses and counterexamples -/

/-- A bundle row owned by user `u`. -/
def exBundleA : BundleRow :=
  { id := 1, uuid := "0xaaa", bundle_type := "program", state := "ready",
    command := none, data_hash := none, owner_id := some "u" }

/-- A bundle row owned by user `v`, readable by group `g1`. -/
def exBundleB : BundleRow :=
  { id := 2, uuid := "0xbbb", bundle_type := "dataset", state := "ready",
    command := none, data_hash := none, owner_id := some "v" }

/-- A context with a public group and a root user distinct from `u`. -/
def exCtx : ModelCtx := { public_group_uuid := "pub", root_user_id := some "root" }

/-- A small database: two bundles, one metadata row, one group with one
member and one READ permission row. -/
def exDB : DB :=
  { bundles := [exBundleA, exBundleB],
    bundle_dependencies := [],
    bundle_metadata := [{ bundle_uuid := "0xaaa", metadata_key := "name", metadata_value := "foo" }],
    worksheet_items := [],
    groups := [{ uuid := "g1", name := "grp", owner_id := none, user_defined := true }],
    user_groups := [{ user_id := "u", group_uuid := "g1", is_admin := false }],
    group_bundle_permissions := [{ group_uuid := "g1", object_uuid := "0xbbb", permission := 1 }] }

/-- A database whose only permission row names a group with no row in the
`group` table, while the user is a member of that group. -/
def exDanglingDB : DB :=
  { bundles := [], bundle_dependencies := [], bundle_metadata := [],
    worksheet_items := [],
    groups := [],
    user_groups := [{ user_id := "u", group_uuid := "g1", is_admin := false }],
    group_bundle_permissions := [{ group_uuid := "g1", object_uuid := "o1", permission := 1 }] }

/-- A database with two bundle rows sharing one uuid. -/
def exDupDB : DB :=
  { bundles := [exBundleA, { exBundleA with id := 5, state := "failed" }],
    bundle_dependencies := [], bundle_metadata := [], worksheet_items := [],
    groups := [], user_groups := [], group_bundle_permissions := [] }

/-- A database with bundles `A` and `B` and a dependency edge `B depends on
A`, plus one dependent row of every kind for `A`. -/
def exDelDB : DB :=
  { bundles :=
      [{ exBundleA with uuid := "A" }, { exBundleB with uuid := "B" }],
    bundle_dependencies := [{ child_uuid := "B", parent_uuid := "A", child_path := "p" }],
    bundle_metadata := [{ bundle_uuid := "A", metadata_key := "name", metadata_value := "x" }],
    worksheet_items :=
      [{ id := 1, worksheet_uuid := "w", bundle_uuid := some "A",
         subworksheet_uuid := none, value := "", item_type := "bundle", sort_key := none }],
    groups := [], user_groups := [],
    group_bundle_permissions := [{ group_uuid := "g", object_uuid := "A", permission := 2 }] }

/-- A three-edge dependency list used by the walker witness. -/
def exDeps : List BundleDependencyRow :=
  [{ child_uuid := "c1", parent_uuid := "a", child_path := "p" },
   { child_uuid := "c2", parent_uuid := "c1", child_path := "p" },
   { child_uuid := "c3", parent_uuid := "zz", child_path := "p" }]

/-- A two-item worksheet state. -/
def exWs : WsState :=
  { items :=
      [{ id := 1, worksheet_uuid := "w", bundle_uuid := none, subworksheet_uuid := none,
         value := "x", item_type := "markup", sort_key := some 0 },
       { id := 2, worksheet_uuid := "w", bundle_uuid := none, subworksheet_uuid := none,
         value := "y", item_type := "markup", sort_key := some 1 }],
    next_id := 3 }

/-- A column update setting the state to `failed`. -/
def exUpdate : BundleColUpdate := { state := some "failed" }

end BundleModel

namespace BundleModel

/-! ## Theorems -/

/-- C9: for every column key, `make_clause` on an empty list/set/tuple
yields the clause satisfied by no row, and hence any kwargs-built clause
containing such a filter matches nothing. -/
theorem make_clause_empty_matches_nothing {ρ : Type}
    (key : ρ → Option String)
    (kwargs : List ((ρ → Option String) × FilterValue))
    (hin : (key, FilterValue.coll []) ∈ kwargs) :
    (∀ r, make_clause key (FilterValue.coll []) r = false) ∧
    (∀ r, make_kwargs_clause kwargs r = false) := by
  constructor
  · intro r
    simp [make_clause]
  · intro r
    simp only [make_kwargs_clause, List.all_cons, id, Bool.true_and, List.all_eq_false]
    refine ⟨make_clause key (FilterValue.coll []) r, List.mem_map_of_mem _ hin, ?_⟩
    simp [make_clause]

/-- Witness for C9 at the bundle table's uuid column. -/
theorem make_clause_empty_matches_nothing_witness :
    (∀ r : BundleRow,
      make_clause (fun r => some r.uuid) (FilterValue.coll []) r = false) ∧
    (∀ r : BundleRow,
      make_kwargs_clause [(fun r => some r.uuid, FilterValue.coll [])] r = false) :=
  make_clause_empty_matches_nothing (fun r => some r.uuid)
    [(fun r => some r.uuid, FilterValue.coll [])] (List.mem_singleton.mpr rfl)

/-- Decidable equality of `Except` results, for evaluating the model at
concrete inputs. -/
instance {ε α : Type} [DecidableEq ε] [DecidableEq α] : DecidableEq (Except ε α) := by
  intro a b
  cases a <;> cases b
  case error.error e1 e2 =>
    exact if h : e1 = e2 then .isTrue (by rw [h]) else .isFalse (by simp [h])
  case error.ok _ _ => exact .isFalse (by simp)
  case ok.error _ _ => exact .isFalse (by simp)
  case ok.ok a1 a2 =>
    exact if h : a1 = a2 then .isTrue (by rw [h]) else .isFalse (by simp [h])

/-- The replacement list has one insert per caller item. -/
theorem new_item_values_length (w : String) (last : Int) (new_items : List NewItem) :
    (new_item_values w last new_items).length = new_items.length := by
  simp [new_item_values]

/-- The sort key of the replacement item at position `i`. -/
theorem new_item_values_get (w : String) (last : Int) (new_items : List NewItem)
    (i : Nat) (hi : i < new_items.length) :
    ((new_item_values w last new_items).get
      ⟨i, by simpa [new_item_values_length] using hi⟩).sort_key
      = some (last + (i : Int) - new_items.length) := by
  simp [new_item_values, List.get_eq_getElem, List.getElem_map, List.getElem_enum]

/-- Case analysis of `update_worksheet` as a single conditional. -/
theorem update_worksheet_eq (s : WsState) (w : String) (last : Int)
    (len : Nat) (new_items : List NewItem) :
    update_worksheet s w last len new_items =
      (if len < (s.items.filter (updateClause w last)).length then
        .error (.integrityError ("Found extra items for worksheet " ++ w))
      else if (s.items.filter (updateClause w last)).length < len then
        .error (.usageError ("Worksheet " ++ w ++ " was updated concurrently!"))
      else .ok (insertItemRows
        { s with items := s.items.filter (fun r => !updateClause w last r) }
        (new_item_values w last new_items))) := by
  unfold update_worksheet
  simp only [precondition, bind, Except.bind]
  rcases Nat.lt_trichotomy (s.items.filter (updateClause w last)).length len
    with h | h | h
  · have h1 : (s.items.filter (updateClause w last)).length ≤ len := h.le
    have h2 : ¬ len < (s.items.filter (updateClause w last)).length := by omega
    simp [h1, h, h2]
  · have h1 : (s.items.filter (updateClause w last)).length ≤ len := h.le
    have h2 : ¬ len < (s.items.filter (updateClause w last)).length := by omega
    have h3 : ¬ (s.items.filter (updateClause w last)).length < len := by omega
    simp [h1, h2, h3, pure, Except.pure]
  · have h1 : ¬ (s.items.filter (updateClause w last)).length ≤ len := by omega
    simp [h1, h]

/-- C3: a successful `update_worksheet` call replaces the matched prefix by
the caller's items; the item at 0-based position `i` receives sort key
`last_item_id + i - len(new_items)`, every new sort key is strictly below
`last_item_id`, and the keys strictly increase with position, preserving
the caller-supplied order. -/
theorem update_worksheet_sort_keys (s : WsState) (w : String) (last : Int)
    (len : Nat) (new_items : List NewItem) (s2 : WsState)
    (_hne : new_items ≠ [])
    (hok : update_worksheet s w last len new_items = .ok s2) :
    s2.items = s.items.filter (fun r => !updateClause w last r) ++
      (new_item_values w last new_items).enum.map
        (fun kv => mkItemRow (s.next_id + kv.1) kv.2) ∧
    (∀ i (hi : i < new_items.length),
      ((new_item_values w last new_items).get
        ⟨i, by simpa [new_item_values_length] using hi⟩).sort_key
        = some (last + (i : Int) - new_items.length)) ∧
    (∀ v ∈ new_item_values w last new_items, ∀ k, v.sort_key = some k → k < last) ∧
    (∀ i j (hi : i < new_items.length) (hj : j < new_items.length), i < j →
      ∀ a b,
        ((new_item_values w last new_items).get
          ⟨i, by simpa [new_item_values_length] using hi⟩).sort_key = some a →
        ((new_item_values w last new_items).get
          ⟨j, by simpa [new_item_values_length] using hj⟩).sort_key = some b →
        a < b) := by
  have hmain := update_worksheet_eq s w last len new_items
  refine ⟨?_, ?_, ?_, ?_⟩
  · rw [hmain] at hok
    split at hok
    · exact absurd hok (by simp)
    · split at hok
      · exact absurd hok (by simp)
      · cases hok
        rfl
  · intro i hi
    exact new_item_values_get w last new_items i hi
  · intro v hv k hk
    obtain ⟨⟨i, hlen⟩, rfl⟩ := List.mem_iff_get.mp hv
    have hi : i < new_items.length := by
      simpa [new_item_values_length] using hlen
    have := new_item_values_get w last new_items i hi
    rw [this] at hk
    obtain rfl : last + (i : Int) - new_items.length = k := by
      exact Option.some.injEq _ _ ▸ (by simpa using hk)
    omega
  · intro i j hi hj hij a b ha hb
    rw [new_item_values_get w last new_items i hi] at ha
    rw [new_item_values_get w last new_items j hj] at hb
    have ha2 : last + (i : Int) - new_items.length = a := by simpa using ha
    have hb2 : last + (j : Int) - new_items.length = b := by simpa using hb
    omega

/-- One replacement item used by the C3 witness. -/
def exNewItems : List NewItem :=
  [{ bundle_uuid := none, subworksheet_uuid := none, value := "z", item_type := "markup" }]

/-- The worksheet state after the C3 witness update. -/
def exWsAfter : WsState :=
  { items :=
      [{ id := 3, worksheet_uuid := "w", bundle_uuid := none, subworksheet_uuid := none,
         value := "z", item_type := "markup", sort_key := some 1 }],
    next_id := 4 }

/-- Witness for C3: a concrete successful update of the two-item worksheet. -/
theorem update_worksheet_sort_keys_witness :
    exWsAfter.items = exWs.items.filter (fun r => !updateClause "w" 2 r) ++
      (new_item_values "w" 2 exNewItems).enum.map
        (fun kv => mkItemRow (exWs.next_id + kv.1) kv.2) ∧
    (∀ i (hi : i < exNewItems.length),
      ((new_item_values "w" 2 exNewItems).get
        ⟨i, by simpa [new_item_values_length] using hi⟩).sort_key
        = some (2 + (i : Int) - exNewItems.length)) ∧
    (∀ v ∈ new_item_values "w" 2 exNewItems, ∀ k, v.sort_key = some k → k < 2) ∧
    (∀ i j (hi : i < exNewItems.length) (hj : j < exNewItems.length), i < j →
      ∀ a b,
        ((new_item_values "w" 2 exNewItems).get
          ⟨i, by simpa [new_item_values_length] using hi⟩).sort_key = some a →
        ((new_item_values "w" 2 exNewItems).get
          ⟨j, by simpa [new_item_values_length] using hj⟩).sort_key = some b →
        a < b) :=
  update_worksheet_sort_keys exWs "w" 2 2 exNewItems exWsAfter
    (by decide) (by decide)

/-- C4: when the deleted-row count is below the expected length the update
fails with the concurrent-modification UsageError, when it exceeds it the
update fails with an IntegrityError, and in both cases the worksheet's
items are unchanged. -/
theorem update_worksheet_count_mismatch (s : WsState) (w : String) (last : Int)
    (len : Nat) (new_items : List NewItem) :
    ((s.items.filter (updateClause w last)).length < len →
      update_worksheet s w last len new_items =
        .error (.usageError ("Worksheet " ++ w ++ " was updated concurrently!")) ∧
      update_worksheet_items_after s w last len new_items = s.items) ∧
    (len < (s.items.filter (updateClause w last)).length →
      update_worksheet s w last len new_items =
        .error (.integrityError ("Found extra items for worksheet " ++ w)) ∧
      update_worksheet_items_after s w last len new_items = s.items) := by
  have hmain := update_worksheet_eq s w last len new_items
  constructor
  · intro hlt
    have h : update_worksheet s w last len new_items =
        .error (.usageError ("Worksheet " ++ w ++ " was updated concurrently!")) := by
      rw [hmain, if_neg (by omega), if_pos hlt]
    exact ⟨h, by simp [update_worksheet_items_after, h]⟩
  · intro hgt
    have h : update_worksheet s w last len new_items =
        .error (.integrityError ("Found extra items for worksheet " ++ w)) := by
      rw [hmain, if_pos hgt]
    exact ⟨h, by simp [update_worksheet_items_after, h]⟩

/-- Membership is invariant under sorted insertion. -/
theorem mem_insertSorted {α : Type} (key : α → Int) (x : α) (l : List α) (a : α) :
    a ∈ insertSorted key x l ↔ a = x ∨ a ∈ l := by
  induction l with
  | nil => simp [insertSorted]
  | cons y ys ih =>
    simp only [insertSorted]
    split
    · simp [or_comm, or_assoc, or_left_comm]
    · simp [ih]
      tauto

/-- Membership is invariant under sorting. -/
theorem mem_sortByKey {α : Type} (key : α → Int) (l : List α) (a : α) :
    a ∈ sortByKey key l ↔ a ∈ l := by
  induction l with
  | nil => simp [sortByKey]
  | cons y ys ih => simp [sortByKey, mem_insertSorted, ih]

/-- Membership in the accumulator-based deduplication. -/
theorem mem_dedupKeysAux {α : Type} [DecidableEq α] (l : List α) :
    ∀ (seen : List α) (a : α), a ∈ dedupKeysAux seen l ↔ a ∈ l ∧ a ∉ seen := by
  induction l with
  | nil => simp [dedupKeysAux]
  | cons x xs ih =>
    intro seen a
    rw [dedupKeysAux]
    split
    · rw [ih]
      constructor
      · intro h2
        exact ⟨List.mem_cons_of_mem _ h2.1, h2.2⟩
      · rintro ⟨h2, h3⟩
        rcases List.mem_cons.mp h2 with h4 | h4
        · subst h4; exact absurd (by assumption) h3
        · exact ⟨h4, h3⟩
    · constructor
      · intro h2
        rcases List.mem_cons.mp h2 with h4 | h4
        · subst h4; exact ⟨List.mem_cons_self _ _, by assumption⟩
        · rcases (ih _ _).mp h4 with ⟨h5, h6⟩
          exact ⟨List.mem_cons_of_mem _ h5, fun h7 => h6 (List.mem_cons_of_mem _ h7)⟩
      · rintro ⟨h2, h3⟩
        rcases List.mem_cons.mp h2 with h4 | h4
        · subst h4; exact List.mem_cons_self _ _
        · by_cases h5 : a = x
          · subst h5; exact List.mem_cons_self _ _
          · exact List.mem_cons_of_mem _ ((ih _ _).mpr
              ⟨h4, fun h6 => by
                rcases List.mem_cons.mp h6 with h7 | h7
                · exact h5 h7
                · exact h3 h7⟩)

/-- Every element of the deduplicated keys comes from the list and
conversely. -/
theorem mem_dedupKeys {α : Type} [DecidableEq α] (l : List α) (a : α) :
    a ∈ dedupKeys l ↔ a ∈ l := by
  rw [dedupKeys, mem_dedupKeysAux]
  simp

/-- The deduplicated keys contain no duplicates. -/
theorem nodup_dedupKeysAux {α : Type} [DecidableEq α] (l : List α) :
    ∀ seen : List α, (dedupKeysAux seen l).Nodup := by
  induction l with
  | nil => intro seen; simp [dedupKeysAux]
  | cons x xs ih =>
    intro seen
    rw [dedupKeysAux]
    split
    · exact ih seen
    · refine List.nodup_cons.mpr ⟨?_, ih (x :: seen)⟩
      intro hmem
      exact ((mem_dedupKeysAux _ _ _).mp hmem).2 (List.mem_cons_self _ _)

/-- The deduplicated keys contain no duplicates. -/
theorem nodup_dedupKeys {α : Type} [DecidableEq α] (l : List α) :
    (dedupKeys l).Nodup :=
  nodup_dedupKeysAux l []

/-- Deduplicating a list all of whose elements are seen yields nothing. -/
theorem dedupKeysAux_all_seen {α : Type} [DecidableEq α] (l : List α) :
    ∀ seen : List α, (∀ x ∈ l, x ∈ seen) → dedupKeysAux seen l = [] := by
  induction l with
  | nil => intro seen _; rfl
  | cons x xs ih =>
    intro seen hall
    rw [dedupKeysAux, if_pos (hall x (List.mem_cons_self _ _))]
    exact ih seen (fun y hy => hall y (List.mem_cons_of_mem _ hy))

/-- Deduplicating a nonempty constant list gives the singleton. -/
theorem dedupKeys_all_eq {α : Type} [DecidableEq α] (l : List α) (u : α)
    (hne : l ≠ []) (hall : ∀ x ∈ l, x = u) : dedupKeys l = [u] := by
  cases l with
  | nil => exact absurd rfl hne
  | cons x xs =>
    have hx : x = u := hall x (by simp)
    subst hx
    rw [dedupKeys, dedupKeysAux, if_neg (by simp)]
    rw [dedupKeysAux_all_seen]
    intro y hy
    have := hall y (List.mem_cons_of_mem _ hy)
    simp [this]

/-- Witness for C4: a concrete too-large and a concrete too-small expected
length against the two-item worksheet. -/
theorem update_worksheet_count_mismatch_witness :
    (update_worksheet exWs "w" 2 3 [] =
      .error (.usageError ("Worksheet " ++ "w" ++ " was updated concurrently!")) ∧
     update_worksheet_items_after exWs "w" 2 3 [] = exWs.items) ∧
    (update_worksheet exWs "w" 2 1 [] =
      .error (.integrityError ("Found extra items for worksheet " ++ "w")) ∧
     update_worksheet_items_after exWs "w" 2 1 [] = exWs.items) :=
  ⟨(update_worksheet_count_mismatch exWs "w" 2 3 []).1 (by decide),
   (update_worksheet_count_mismatch exWs "w" 2 1 []).2 (by decide)⟩

/-- The single-uuid kwargs clause of `get_bundle` filters exactly the rows
with that uuid. -/
theorem get_bundle_filter_eq (db : DB) (u : String) :
    db.bundles.filter
        (make_kwargs_clause [(fun r => some r.uuid, FilterValue.val (some u))]) =
      db.bundles.filter (fun r => r.uuid = u) := by
  apply List.filter_congr
  intro r _
  by_cases h : r.uuid = u <;> simp [make_kwargs_clause, make_clause, h]

/-- C8 counterexample: on a database holding two bundle rows with the same
uuid, `get_bundle` raises nothing — the rows collapse into one uuid-keyed
entry, the duplicate branch never fires, and the bundle assembled from the
last row is returned, contradicting the claimed UsageError. -/
theorem get_bundle_duplicate_counterexample :
    (exDupDB.bundles.filter (fun r => r.uuid = "0xaaa")).length = 2 ∧
    get_bundle exDupDB "0xaaa" =
      .ok { row := { exBundleA with id := 5, state := "failed" },
            dependencies := [], metadata := [] } := by
  constructor
  · decide
  · decide

/-- C8 (amended): `get_bundle` fails with a UsageError exactly when no
bundle row with the uuid exists; otherwise it returns a single bundle
without error, even when several rows share the uuid (they are collapsed by
uuid, so the duplicate-detection branch is unreachable). -/
theorem get_bundle_not_found_or_ok (db : DB) (u : String) :
    (db.bundles.filter (fun r => r.uuid = u) = [] →
      get_bundle db u = .error (.usageError ("Could not find bundle with uuid " ++ u))) ∧
    (db.bundles.filter (fun r => r.uuid = u) ≠ [] →
      ∃ b, get_bundle db u = .ok b) := by
  constructor
  · intro hnil
    unfold get_bundle batch_get_bundles
    rw [get_bundle_filter_eq, hnil]
    rfl
  · intro hne
    unfold get_bundle batch_get_bundles
    rw [get_bundle_filter_eq]
    have hie : ¬ ((db.bundles.filter (fun r => r.uuid = u)).isEmpty = true) := by
      simpa [List.isEmpty_iff] using hne
    rw [if_neg hie]
    have hdd : dedupKeys ((db.bundles.filter (fun r => r.uuid = u)).map
        (fun r => r.uuid)) = [u] := by
      apply dedupKeys_all_eq
      · simpa using hne
      · intro x hx
        obtain ⟨r, hr, rfl⟩ := List.mem_map.mp hx
        simpa using (List.mem_filter.mp hr).2
    simp only [hdd, List.map_cons, List.map_nil, sortByKey, insertSorted]
    exact ⟨_, rfl⟩

/-- Witness for C8 (amended): the not-found case on the small database, and
the collapsed-duplicate case on the duplicate database. -/
theorem get_bundle_not_found_or_ok_witness :
    get_bundle exDB "0xzzz" =
      .error (.usageError ("Could not find bundle with uuid " ++ "0xzzz")) ∧
    ∃ b, get_bundle exDupDB "0xaaa" = .ok b :=
  ⟨(get_bundle_not_found_or_ok exDB "0xzzz").1 (by decide),
   (get_bundle_not_found_or_ok exDupDB "0xaaa").2 (by decide)⟩

/-- C6 counterexample: updating with an in-memory list naming ids 1 and 2
against a table holding only id 1 fails the count check, yet the matched
row is modified (and committed), contradicting the claim that no database
row is modified on failure. -/
theorem batch_update_bundles_counterexample :
    (([exBundleA] : List BundleRow).filter
        (batchUpdateClause (dedupKeys ([exBundleA, exBundleB].map (fun b => b.id)))
          none)).length = 1 ∧
    (dedupKeys ([exBundleA, exBundleB].map (fun b => b.id))).length = 2 ∧
    (batch_update_bundles [exBundleA] [exBundleA, exBundleB] exUpdate none).1 = false ∧
    (batch_update_bundles [exBundleA] [exBundleA, exBundleB] exUpdate none).2.1 =
      [{ exBundleA with state := "failed" }] ∧
    ({ exBundleA with state := "failed" } : BundleRow) ≠ exBundleA := by
  refine ⟨by decide, by decide, by decide, by decide, by decide⟩

/-- C6 (amended): when the matched row count differs from the number of
distinct supplied bundle ids, the call returns False and leaves every
in-memory bundle object unmodified, but the row updates are not rolled
back: every table row matching the update clause is modified and committed. -/
theorem batch_update_bundles_mismatch (rows bundles : List BundleRow)
    (update : BundleColUpdate)
    (condition : Option (List ((BundleRow → Option String) × FilterValue)))
    (hmis : (rows.filter (batchUpdateClause
        (dedupKeys (bundles.map (fun b => b.id))) condition)).length ≠
      (dedupKeys (bundles.map (fun b => b.id))).length) :
    batch_update_bundles rows bundles update condition =
      (false,
       rows.map (fun r =>
         if batchUpdateClause (dedupKeys (bundles.map (fun b => b.id))) condition r
         then applyColUpdate r update else r),
       bundles) := by
  cases bundles with
  | nil =>
    exfalso
    apply hmis
    simp [dedupKeys, dedupKeysAux, batchUpdateClause]
  | cons b bs =>
    unfold batch_update_bundles
    rw [if_neg (by simp)]
    have hsucc : ((rows.filter (batchUpdateClause
        (dedupKeys ((b :: bs).map (fun b => b.id))) condition)).length ==
      (dedupKeys ((b :: bs).map (fun b => b.id))).length) = false := by
      simpa using hmis
    simp only [hsucc, Bool.false_eq_true, if_false]

/-- Witness for C6 (amended) at the concrete mismatching input. -/
theorem batch_update_bundles_mismatch_witness :
    batch_update_bundles [exBundleA] [exBundleA, exBundleB] exUpdate none =
      (false,
       ([exBundleA] : List BundleRow).map (fun r =>
         if batchUpdateClause (dedupKeys ([exBundleA, exBundleB].map (fun b => b.id)))
             none r
         then applyColUpdate r exUpdate else r),
       [exBundleA, exBundleB]) :=
  batch_update_bundles_mismatch [exBundleA] [exBundleA, exBundleB] exUpdate none
    (by decide)

/-- The database left by the C7 deletion of bundle `A`. -/
def exDelAfter : DB :=
  { bundles := [{ exBundleB with uuid := "B" }],
    bundle_dependencies := [{ child_uuid := "B", parent_uuid := "A", child_path := "p" }],
    bundle_metadata := [], worksheet_items := [], groups := [], user_groups := [],
    group_bundle_permissions := [] }

/-- C7 counterexample: deleting bundle `A` succeeds, `A`'s bundle row is
gone, yet the dependency row whose parent is `A` survives (only edges by
child uuid are deleted), so an orphaned row referencing the deleted bundle
remains in `bundle_dependency`. -/
theorem delete_bundles_orphan_counterexample :
    delete_bundles exDelDB ["A"] = .ok exDelAfter ∧
    (∀ b ∈ exDelAfter.bundles, b.uuid ≠ "A") ∧
    ∃ d ∈ exDelAfter.bundle_dependencies, d.parent_uuid = "A" := by
  refine ⟨by decide, by decide, by decide⟩

/-- C7 (amended): a successful `delete_bundles` removes, before the bundle
rows themselves, every permission row on the deleted bundles, every
worksheet item referencing them, every metadata row of theirs and every
dependency edge having one of them as child; afterwards no row of those
kinds remains (dependency rows whose parent is a deleted bundle but whose
child survives are not removed). -/
theorem delete_bundles_no_orphans (db : DB) (uuids : List String) (db2 : DB)
    (hok : delete_bundles db uuids = .ok db2) :
    (∀ p ∈ db2.group_bundle_permissions, p.object_uuid ∉ uuids) ∧
    (∀ it ∈ db2.worksheet_items, ∀ u, it.bundle_uuid = some u → u ∉ uuids) ∧
    (∀ m ∈ db2.bundle_metadata, m.bundle_uuid ∉ uuids) ∧
    (∀ d ∈ db2.bundle_dependencies, d.child_uuid ∉ uuids) ∧
    (∀ b ∈ db2.bundles, b.uuid ∉ uuids) ∧
    (delete_bundles_dependents db uuids).bundles = db.bundles := by
  have hdb2 : db2 = { delete_bundles_dependents db uuids with
      bundles := (delete_bundles_dependents db uuids).bundles.filter
        (fun b => !uuids.contains b.uuid) } := by
    unfold delete_bundles at hok
    simp only [bind, Except.bind] at hok
    split at hok
    · exact absurd hok (by simp)
    · simpa [pure, Except.pure] using hok.symm
  subst hdb2
  refine ⟨?_, ?_, ?_, ?_, ?_, rfl⟩
  · intro p hp
    have := (List.mem_filter.mp hp).2
    simpa using this
  · intro it hit u hu
    have := (List.mem_filter.mp hit).2
    rw [hu] at this
    simpa using this
  · intro m hm
    have := (List.mem_filter.mp hm).2
    simpa using this
  · intro d hd
    have := (List.mem_filter.mp hd).2
    simpa using this
  · intro b hb
    have := (List.mem_filter.mp hb).2
    simpa using this

/-- The first loop of `get_user_permissions` in closed form: owned (or
root-visible) listed objects map to ALL, everything else keeps its previous
value; the remaining queue collects the other listed objects in order. -/
theorem ownerPass_foldl (ctx : ModelCtx) (user_id : Option String)
    (owner_ids : List (String × Option String)) (l : List String) :
    ∀ acc : (String → Nat) × List String,
    l.foldl (ownerPass ctx user_id owner_ids) acc =
      (fun u => if ownerRootCond ctx user_id owner_ids u = true ∧ u ∈ l
        then GROUP_OBJECT_PERMISSION_ALL else acc.1 u,
       acc.2 ++ l.filter (fun x => !(ownerRootCond ctx user_id owner_ids x))) := by
  induction l with
  | nil =>
    intro acc
    simp
  | cons x xs ih =>
    intro acc
    rw [List.foldl_cons, ih]
    unfold ownerPass
    by_cases hx : ownerRootCond ctx user_id owner_ids x
    · rw [if_pos hx]
      refine Prod.ext ?_ ?_
      · funext u
        by_cases hu : ownerRootCond ctx user_id owner_ids u = true
        · by_cases hmem : u ∈ xs
          · simp [hu, hmem]
          · by_cases hux : u = x
            · subst hux
              simp [hu, hmem, dictSet]
            · simp [hu, hmem, hux, dictSet]
        · have hux : u ≠ x := fun h => hu (h ▸ hx)
          simp [hu, hux, dictSet]
      · simp [hx]
    · rw [if_neg hx]
      refine Prod.ext ?_ ?_
      · funext u
        by_cases hu : ownerRootCond ctx user_id owner_ids u = true
        · have hux : u ≠ x := fun h => hx (h ▸ hu)
          simp [hu, hux]
        · simp [hu]
      · simp [hx, List.filter_cons]

/-- The inner row loop of `get_user_permissions` in closed form: it only
changes the object under consideration, accumulating a conditional
maximum. -/
theorem groupRowPass_foldl (G : List String) (obj : String)
    (rows : List PermEntry) :
    ∀ perms : String → Nat,
    rows.foldl (groupRowPass G obj) perms =
      fun k => if k = obj
        then rows.foldl
          (fun v row => if G.contains row.group_uuid then max v row.permission else v)
          (perms obj)
        else perms k := by
  induction rows with
  | nil =>
    intro perms
    funext k
    by_cases h : k = obj <;> simp [h]
  | cons r rs ih =>
    intro perms
    rw [List.foldl_cons, List.foldl_cons, ih]
    unfold groupRowPass
    by_cases hg : G.contains r.group_uuid
    · rw [if_pos hg, if_pos hg]
      funext k
      by_cases hk : k = obj
      · subst hk
        simp [dictSet]
      · simp [hk, dictSet]
    · rw [if_neg hg, if_neg hg]

/-- The outer per-object loop of `get_user_permissions` read at one object:
only the groups keyed by that object contribute, in order. -/
theorem groupPass_foldl (G : List String)
    (groups : List (String × List PermEntry)) (u : String) :
    ∀ perms : String → Nat,
    (groups.foldl (groupPass G) perms) u =
      ((groups.filter (fun kv => kv.1 = u)).flatMap (fun kv => kv.2)).foldl
        (fun v row => if G.contains row.group_uuid then max v row.permission else v)
        (perms u) := by
  induction groups with
  | nil =>
    intro perms
    simp
  | cons kv rest ih =>
    intro perms
    rw [List.foldl_cons, ih]
    unfold groupPass
    rw [groupRowPass_foldl]
    by_cases hk : kv.1 = u
    · simp [hk, List.foldl_append]
    · have hk2 : ¬ u = kv.1 := fun h => hk h.symm
      simp [hk, hk2]

/-- The implementation's group set agrees with the claim's group set. -/
theorem user_groups_eq_spec (db : DB) (ctx : ModelCtx) (user_id : Option String) :
    _get_user_groups db ctx user_id = spec_principal_groups db ctx user_id := by
  unfold _get_user_groups spec_principal_groups batch_get_user_in_group
  cases user_id with
  | none =>
    have h : db.user_groups.filter (fun r => some r.user_id == (none : Option String)) = [] := by
      apply List.filter_eq_nil_iff.mpr
      intro r _
      simp
    rw [h]
    rfl
  | some uu =>
    have hfe : db.user_groups.filter (fun r => some r.user_id == some uu) =
        db.user_groups.filter (fun r => decide (r.user_id = uu)) := by
      apply List.filter_congr
      intro r _
      by_cases h : r.user_id = uu <;> simp [h]
    rw [hfe]

/-- Filtering a duplicate-free list for one element. -/
theorem nodup_filter_eq_singleton {α : Type} [DecidableEq α] (u : α) :
    ∀ l : List α, l.Nodup →
    l.filter (fun x => x = u) = if u ∈ l then [u] else [] := by
  intro l
  induction l with
  | nil =>
    intro _
    simp
  | cons x xs ih =>
    intro hnd
    rcases List.nodup_cons.mp hnd with ⟨hnx, hxs⟩
    rw [List.filter_cons]
    by_cases hx : x = u
    · subst hx
      have h0 : xs.filter (fun y => y = x) = [] := by
        apply List.filter_eq_nil_iff.mpr
        intro a ha
        simp only [decide_eq_true_eq]
        intro hax
        exact hnx (hax ▸ ha)
      simp [h0]
    · rw [ih hxs]
      by_cases hm : u ∈ xs
      · simp [hx, hm, Ne.symm hx]
      · simp [hx, hm, Ne.symm hx]

/-- The rows the second pass folds over for one object are exactly that
object's joined permission rows. -/
theorem batch_groups_rows_for (db : DB) (rem : List String) (u : String) :
    ((batch_get_group_permissions db rem).filter (fun kv => kv.1 = u)).flatMap
        (fun kv => kv.2) =
      ((groupPermJoinRows db rem).filter (fun r => r.1 = u)).map (fun r => r.2) := by
  unfold batch_get_group_permissions
  rw [List.filter_map]
  have hkeys : (dedupKeys ((groupPermJoinRows db rem).map (fun r => r.1))).filter
      ((fun kv : String × List PermEntry => kv.1 = u) ∘
        (fun u2 => (u2, ((groupPermJoinRows db rem).filter (fun r => r.1 = u2)).map
          (fun r => r.2)))) =
      (dedupKeys ((groupPermJoinRows db rem).map (fun r => r.1))).filter
        (fun x => x = u) := by
    apply List.filter_congr
    intro x _
    rfl
  rw [hkeys, nodup_filter_eq_singleton _ _ (nodup_dedupKeys _)]
  by_cases hm : u ∈ dedupKeys ((groupPermJoinRows db rem).map (fun r => r.1))
  · simp [hm]
  · have hnone : (groupPermJoinRows db rem).filter (fun r => r.1 = u) = [] := by
      apply List.filter_eq_nil_iff.mpr
      intro r hr
      simp only [decide_eq_true_eq]
      intro hru
      exact hm ((mem_dedupKeys _ _).mpr (List.mem_map.mpr ⟨r, hr, hru⟩))
    simp [hm, hnone]

/-- Conditional max-folding equals max-folding the filtered contributions. -/
theorem foldl_max_cond_eq (G : List String) (l : List PermEntry) :
    ∀ a : Nat,
    l.foldl (fun v row => if G.contains row.group_uuid then max v row.permission else v) a
      = ((l.filter (fun row => G.contains row.group_uuid)).map
          (fun row => row.permission)).foldl max a := by
  induction l with
  | nil => intro a; rfl
  | cons r rs ih =>
    intro a
    rw [List.foldl_cons, List.filter_cons]
    by_cases hg : G.contains r.group_uuid
    · rw [if_pos hg, if_pos hg, List.map_cons, List.foldl_cons, ih]
    · rw [if_neg hg, if_neg hg, ih]

/-- Left max-folding is the max of the seed and the right max-fold. -/
theorem foldl_max_eq (l : List Nat) : ∀ a : Nat, l.foldl max a = max a (l.foldr max 0) := by
  induction l with
  | nil => intro a; simp
  | cons x xs ih =>
    intro a
    rw [List.foldl_cons, ih, List.foldr_cons, Nat.max_assoc]

/-- The right max-fold is below a bound exactly when every element is. -/
theorem foldr_max_le (l : List Nat) (b : Nat) :
    l.foldr max 0 ≤ b ↔ ∀ x ∈ l, x ≤ b := by
  induction l with
  | nil => simp
  | cons x xs ih =>
    rw [List.foldr_cons, Nat.max_le]
    constructor
    · intro h y hy
      rcases List.mem_cons.mp hy with h1 | h1
      · exact h1 ▸ h.1
      · exact (ih.mp h.2) y h1
    · intro h
      exact ⟨h x (List.mem_cons_self _ _),
        ih.mpr (fun y hy => h y (List.mem_cons_of_mem _ hy))⟩

/-- Every element bounds the right max-fold from below. -/
theorem le_foldr_max (l : List Nat) (x : Nat) (hx : x ∈ l) : x ≤ l.foldr max 0 := by
  induction l with
  | nil => simp at hx
  | cons y ys ih =>
    rw [List.foldr_cons]
    rcases List.mem_cons.mp hx with h | h
    · exact h ▸ Nat.le_max_left _ _
    · exact Nat.le_trans (ih h) (Nat.le_max_right _ _)

/-- Max-folds of lists with the same members agree. -/
theorem foldr_max_congr (l1 l2 : List Nat) (h : ∀ x, x ∈ l1 ↔ x ∈ l2) :
    l1.foldr max 0 = l2.foldr max 0 := by
  apply Nat.le_antisymm
  · exact (foldr_max_le _ _).mpr (fun x hx => le_foldr_max _ _ ((h x).mp hx))
  · exact (foldr_max_le _ _).mpr (fun x hx => le_foldr_max _ _ ((h x).mpr hx))

/-- Any listed object the owner/root test accepts resolves to ALL. -/
theorem get_user_permissions_ownerRoot (db : DB) (ctx : ModelCtx)
    (user_id : Option String) (object_uuids : List String)
    (owner_ids : List (String × Option String)) (u : String)
    (hu : u ∈ object_uuids)
    (hc : ownerRootCond ctx user_id owner_ids u = true) :
    get_user_permissions db ctx user_id object_uuids owner_ids u =
      GROUP_OBJECT_PERMISSION_ALL := by
  unfold get_user_permissions
  rw [ownerPass_foldl]
  simp only [List.nil_append]
  set rem := object_uuids.filter
    (fun x => !(ownerRootCond ctx user_id owner_ids x)) with hrem
  by_cases hlen : rem.length > 0
  · rw [if_pos hlen]
    rw [groupPass_foldl]
    have hnotin : u ∉ rem := by
      intro hin
      have := (List.mem_filter.mp hin).2
      simp [hc] at this
    have hempty : (batch_get_group_permissions db rem).filter
        (fun kv => kv.1 = u) = [] := by
      apply List.filter_eq_nil_iff.mpr
      intro kv hkv
      simp only [decide_eq_true_eq]
      intro hkvu
      unfold batch_get_group_permissions at hkv
      obtain ⟨k, hk, hkv2⟩ := List.mem_map.mp hkv
      have hk2 : k = u := by rw [← hkv2] at hkvu; exact hkvu
      have hkK := (mem_dedupKeys _ _).mp hk
      obtain ⟨r, hr, hru⟩ := List.mem_map.mp hkK
      unfold groupPermJoinRows at hr
      obtain ⟨p, hp, hpr⟩ := List.mem_flatMap.mp hr
      obtain ⟨g, _, hgr⟩ := List.mem_map.mp hpr
      have hobj : p.object_uuid = k := by rw [← hgr] at hru; exact hru
      have hpc := (List.mem_filter.mp hp).2
      rw [hobj, hk2] at hpc
      exact hnotin (by simpa using hpc)
    rw [hempty]
    simp [hc, hu]
  · rw [if_neg hlen]
    simp [hc, hu]

/-- C2 counterexample: a permission row granting READ to a group the user
belongs to is ignored when the group has no row in the `group` table (the
fetch inner-joins with `group`), so the computed value is NONE where the
claim prescribes READ. -/
theorem get_user_permissions_dangling_group_counterexample :
    get_user_permissions exDanglingDB exCtx (some "u") ["o1"] [] "o1" =
      GROUP_OBJECT_PERMISSION_NONE ∧
    spec_C2_permission exDanglingDB exCtx (some "u") [] "o1" =
      GROUP_OBJECT_PERMISSION_READ ∧
    GROUP_OBJECT_PERMISSION_NONE ≠ GROUP_OBJECT_PERMISSION_READ := by
  refine ⟨by decide, by decide, by decide⟩

/-- C2 (amended): `get_user_permissions` assigns ALL to every listed object
whose recorded owner equals the principal or when the principal is root,
and to every other listed object the maximum of NONE and the levels of the
permission rows on it whose group both has a row in the `group` table and
lies in the principal's group set (public group plus explicit memberships). -/
theorem get_user_permissions_eq_spec (db : DB) (ctx : ModelCtx)
    (user_id : Option String) (object_uuids : List String)
    (owner_ids : List (String × Option String)) (u : String)
    (hu : u ∈ object_uuids) :
    get_user_permissions db ctx user_id object_uuids owner_ids u =
      spec_C2_permission_amended db ctx user_id owner_ids u := by
  by_cases hc : ownerRootCond ctx user_id owner_ids u
  · rw [get_user_permissions_ownerRoot db ctx user_id object_uuids owner_ids u hu hc]
    unfold spec_C2_permission_amended
    have hc2 : (user_id == ownerGet owner_ids u || user_id == ctx.root_user_id) = true := hc
    rw [if_pos hc2]
  · unfold get_user_permissions
    rw [ownerPass_foldl]
    simp only [List.nil_append]
    have hurem : u ∈ object_uuids.filter
        (fun x => !(ownerRootCond ctx user_id owner_ids x)) :=
      List.mem_filter.mpr ⟨hu, by simp [hc]⟩
    have hlen : (object_uuids.filter
        (fun x => !(ownerRootCond ctx user_id owner_ids x))).length > 0 :=
      List.length_pos.mpr (List.ne_nil_of_mem hurem)
    rw [if_pos hlen]
    rw [groupPass_foldl]
    rw [batch_groups_rows_for]
    rw [foldl_max_cond_eq, foldl_max_eq]
    simp only [hc, Bool.false_eq_true, false_and, if_false]
    unfold spec_C2_permission_amended
    have hc2 : ¬ ((user_id == ownerGet owner_ids u || user_id == ctx.root_user_id) = true) := hc
    rw [if_neg hc2]
    have hzero : GROUP_OBJECT_PERMISSION_NONE = 0 := rfl
    simp only [hzero, Nat.zero_max]
    apply foldr_max_congr
    intro x
    constructor
    · intro hx
      obtain ⟨row, hrow, hxval⟩ := List.mem_map.mp hx
      obtain ⟨hrow2, hG⟩ := List.mem_filter.mp hrow
      obtain ⟨r, hr, hr2⟩ := List.mem_map.mp hrow2
      obtain ⟨hrJ, hr1⟩ := List.mem_filter.mp hr
      unfold groupPermJoinRows at hrJ
      obtain ⟨p, hp, hpr⟩ := List.mem_flatMap.mp hrJ
      obtain ⟨g, hg, hgr⟩ := List.mem_map.mp hpr
      obtain ⟨hpmem, _⟩ := List.mem_filter.mp hp
      obtain ⟨hgmem, hguuid⟩ := List.mem_filter.mp hg
      apply List.mem_map.mpr
      refine ⟨p, List.mem_filter.mpr ⟨hpmem, ?_⟩, ?_⟩
      · have hobj : p.object_uuid = u := by
          have : r.1 = p.object_uuid := by rw [← hgr]
          simp only [decide_eq_true_eq] at hr1
          rw [← this]
          exact hr1
        have hgrp : row.group_uuid = p.group_uuid := by rw [← hr2, ← hgr]
        have hGmem : p.group_uuid ∈ _get_user_groups db ctx user_id := by
          rw [← hgrp]
          simpa using hG
        rw [user_groups_eq_spec] at hGmem
        simp only [Bool.and_eq_true, beq_iff_eq, List.any_eq_true, decide_eq_true_eq]
        refine ⟨⟨hobj, ⟨g, hgmem, by simpa using hguuid⟩⟩, by simpa using hGmem⟩
      · rw [← hxval, ← hr2, ← hgr]
    · intro hx
      obtain ⟨p, hp, hxval⟩ := List.mem_map.mp hx
      obtain ⟨hpmem, hpcond⟩ := List.mem_filter.mp hp
      simp only [Bool.and_eq_true, beq_iff_eq, List.any_eq_true, decide_eq_true_eq]
        at hpcond
      obtain ⟨⟨hobj, ⟨g, hgmem, hguuid⟩⟩, hGspec⟩ := hpcond
      apply List.mem_map.mpr
      refine ⟨{ group_uuid := p.group_uuid, group_name := g.name,
                permission := p.permission }, ?_, hxval⟩
      apply List.mem_filter.mpr
      constructor
      · apply List.mem_map.mpr
        refine ⟨(p.object_uuid,
          ({ group_uuid := p.group_uuid, group_name := g.name,
             permission := p.permission } : PermEntry)), ?_, rfl⟩
        apply List.mem_filter.mpr
        constructor
        · unfold groupPermJoinRows
          apply List.mem_flatMap.mpr
          refine ⟨p, ?_, ?_⟩
          · apply List.mem_filter.mpr
            refine ⟨hpmem, ?_⟩
            rw [hobj]
            simpa using hurem
          · apply List.mem_map.mpr
            exact ⟨g, List.mem_filter.mpr ⟨hgmem, by simpa using hguuid⟩, rfl⟩
        · simpa using hobj
      · rw [user_groups_eq_spec]
        simpa using hGspec

/-- Witness for C2 (amended): the group-granted READ on the second bundle
of the small database. -/
theorem get_user_permissions_eq_spec_witness :
    get_user_permissions exDB exCtx (some "u") ["0xaaa", "0xbbb"]
        [("0xaaa", some "u")] "0xbbb" =
      spec_C2_permission_amended exDB exCtx (some "u") [("0xaaa", some "u")] "0xbbb" :=
  get_user_permissions_eq_spec exDB exCtx (some "u") ["0xaaa", "0xbbb"]
    [("0xaaa", some "u")] "0xbbb" (by decide)

/-- C10: for an anonymous principal, every listed object whose uuid is
absent from the owner map or whose recorded owner is null resolves to ALL,
because `None == None` makes the anonymous user count as its owner. -/
theorem get_user_permissions_anonymous_ownerless (db : DB) (ctx : ModelCtx)
    (object_uuids : List String) (owner_ids : List (String × Option String))
    (u : String) (hu : u ∈ object_uuids) (hown : ownerGet owner_ids u = none) :
    get_user_permissions db ctx none object_uuids owner_ids u =
      GROUP_OBJECT_PERMISSION_ALL :=
  get_user_permissions_ownerRoot db ctx none object_uuids owner_ids u hu
    (by simp [ownerRootCond, hown])

/-- Visiting an already-visited node changes nothing. -/
theorem bfsVisit_mem (acc : List String × List String) (uuid : String)
    (h : uuid ∈ acc.2) : bfsVisit acc uuid = acc := by
  unfold bfsVisit
  rw [if_pos h]

/-- Visiting a fresh node appends it to both lists. -/
theorem bfsVisit_not_mem (acc : List String × List String) (uuid : String)
    (h : uuid ∉ acc.2) : bfsVisit acc uuid = (acc.1 ++ [uuid], acc.2 ++ [uuid]) := by
  unfold bfsVisit
  rw [if_neg h]

/-- The walk at depth zero returns the visited list. -/
theorem gsdAux_zero (deps : List BundleDependencyRow) (f v : List String) :
    gsdAux deps f v 0 = v := rfl

/-- The walk at a successor depth runs one round and recurses. -/
theorem gsdAux_succ (deps : List BundleDependencyRow) (f v : List String)
    (d : Nat) :
    gsdAux deps f v (d + 1) =
      if f.isEmpty then v
      else gsdAux deps (bfs_round deps f v).1 (bfs_round deps f v).2 d := rfl

/-- Folding `bfsVisit` over a child list extends the frontier and the
visited list by the same block of fresh nodes, all drawn from the child
list, preserving freedom from duplicates. -/
theorem bfsVisit_foldl (l : List String) :
    ∀ (v0 nf vis : List String), vis = v0 ++ nf →
    ∃ δ, l.foldl bfsVisit (nf, vis) = (nf ++ δ, v0 ++ (nf ++ δ)) ∧
      (∀ a ∈ δ, a ∈ l) ∧
      (vis.Nodup → (v0 ++ (nf ++ δ)).Nodup) := by
  induction l with
  | nil =>
    intro v0 nf vis h
    refine ⟨[], by simp [h], by simp, by simp [h]⟩
  | cons x xs ih =>
    intro v0 nf vis h
    rw [List.foldl_cons]
    by_cases hx : x ∈ vis
    · rw [bfsVisit_mem (nf, vis) x hx]
      obtain ⟨δ, h1, h2, h3⟩ := ih v0 nf vis h
      exact ⟨δ, h1, fun a ha => List.mem_cons_of_mem _ (h2 a ha), h3⟩
    · rw [bfsVisit_not_mem (nf, vis) x hx]
      obtain ⟨δ, h1, h2, h3⟩ := ih v0 (nf ++ [x]) (vis ++ [x])
        (by rw [h, List.append_assoc])
      refine ⟨x :: δ, ?_, ?_, ?_⟩
      · rw [show ((nf, vis).1 ++ [x], (nf, vis).2 ++ [x]) = (nf ++ [x], vis ++ [x])
          from rfl, h1]
        simp [List.append_assoc]
      · intro a ha
        rcases List.mem_cons.mp ha with h4 | h4
        · exact h4 ▸ List.mem_cons_self _ _
        · exact List.mem_cons_of_mem _ (h2 a h4)
      · intro hnd
        have hnd2 : (vis ++ [x]).Nodup := by
          rw [List.nodup_append]
          exact ⟨hnd, List.nodup_singleton x, by
            intro a ha hax
            rcases List.mem_singleton.mp hax with rfl
            exact hx ha⟩
        have := h3 hnd2
        simpa [List.append_assoc] using this

/-- The outer loop of one BFS round, over the grouped children. -/
theorem bfs_groups_foldl (groups : List (String × List String))
    (childL : List String)
    (hg : ∀ kv ∈ groups, ∀ a ∈ kv.2, a ∈ childL) :
    ∀ (v0 nf vis : List String), vis = v0 ++ nf →
    ∃ δ, groups.foldl (fun acc kv => kv.2.foldl bfsVisit acc) (nf, vis) =
        (nf ++ δ, v0 ++ (nf ++ δ)) ∧
      (∀ a ∈ δ, a ∈ childL) ∧
      (vis.Nodup → (v0 ++ (nf ++ δ)).Nodup) := by
  induction groups with
  | nil =>
    intro v0 nf vis h
    refine ⟨[], by simp [h], by simp, by simp [h]⟩
  | cons kv rest ih =>
    intro v0 nf vis h
    rw [List.foldl_cons]
    obtain ⟨δ1, h1, h2, h3⟩ := bfsVisit_foldl kv.2 v0 nf vis h
    rw [h1]
    obtain ⟨δ2, h4, h5, h6⟩ :=
      ih (fun kv2 hkv2 => hg kv2 (List.mem_cons_of_mem _ hkv2))
        v0 (nf ++ δ1) (v0 ++ (nf ++ δ1)) rfl
    refine ⟨δ1 ++ δ2, ?_, ?_, ?_⟩
    · rw [h4]
      simp [List.append_assoc]
    · intro a ha
      rcases List.mem_append.mp ha with h7 | h7
      · exact hg kv (List.mem_cons_self _ _) a (h2 a h7)
      · exact h5 a h7
    · intro hnd
      have := h6 (h3 hnd)
      simpa [List.append_assoc] using this

/-- Every child reported by `get_children_uuids` is a child uuid of some
dependency edge. -/
theorem get_children_uuids_children (deps : List BundleDependencyRow)
    (uuids : List String) :
    ∀ kv ∈ get_children_uuids deps uuids, ∀ a ∈ kv.2,
      a ∈ deps.map (fun d => d.child_uuid) := by
  intro kv hkv a ha
  unfold get_children_uuids at hkv
  obtain ⟨k, _, hkeq⟩ := List.mem_map.mp hkv
  rw [← hkeq] at ha
  obtain ⟨d, hd, hdeq⟩ := List.mem_map.mp ha
  have hd2 : d ∈ deps := (List.mem_filter.mp (List.mem_filter.mp hd).1).1
  exact List.mem_map.mpr ⟨d, hd2, hdeq⟩

/-- One BFS round appends a block of fresh child nodes to the visited list
and returns exactly that block as the new frontier. -/
theorem bfs_round_spec (deps : List BundleDependencyRow)
    (frontier visited : List String) :
    ∃ δ, bfs_round deps frontier visited = (δ, visited ++ δ) ∧
      (∀ a ∈ δ, a ∈ deps.map (fun d => d.child_uuid)) ∧
      (visited.Nodup → (visited ++ δ).Nodup) := by
  unfold bfs_round
  obtain ⟨δ, h1, h2, h3⟩ :=
    bfs_groups_foldl (get_children_uuids deps frontier) _
      (get_children_uuids_children deps frontier) visited [] visited (by simp)
  exact ⟨δ, by simpa using h1, h2, by simpa using h3⟩

/-- An empty frontier stops the walk at once. -/
theorem gsdAux_nil_frontier (deps : List BundleDependencyRow)
    (visited : List String) : ∀ d, gsdAux deps [] visited d = visited := by
  intro d
  cases d with
  | zero => rfl
  | succ d =>
    rw [gsdAux_succ]
    simp

/-- The walk only ever appends fresh child nodes to the visited list. -/
theorem gsdAux_append (deps : List BundleDependencyRow) :
    ∀ (d : Nat) (frontier visited : List String),
    ∃ A, gsdAux deps frontier visited d = visited ++ A ∧
      (∀ a ∈ A, a ∈ deps.map (fun x => x.child_uuid)) ∧
      (visited.Nodup → (visited ++ A).Nodup) := by
  intro d
  induction d with
  | zero =>
    intro f v
    exact ⟨[], by rw [gsdAux_zero, List.append_nil], by simp, by simp⟩
  | succ d ih =>
    intro f v
    rw [gsdAux_succ]
    by_cases hf : f.isEmpty
    · rw [if_pos hf]
      exact ⟨[], (List.append_nil v).symm, by simp, fun h => by simpa using h⟩
    · rw [if_neg hf]
      obtain ⟨δ, h1, h2, h3⟩ := bfs_round_spec deps f v
      obtain ⟨A, h4, h5, h6⟩ := ih δ (v ++ δ)
      refine ⟨δ ++ A, ?_, ?_, ?_⟩
      · simp only [h1]
        rw [h4, List.append_assoc]
      · intro a ha
        rcases List.mem_append.mp ha with h7 | h7
        · exact h2 a h7
        · exact h5 a h7
      · intro hnd
        rw [← List.append_assoc]
        exact h6 (h3 hnd)

/-- Deeper walks only grow the result. -/
theorem gsdAux_mono (deps : List BundleDependencyRow) :
    ∀ (d1 d2 : Nat), d1 ≤ d2 → ∀ (f v : List String) (a : String),
      a ∈ gsdAux deps f v d1 → a ∈ gsdAux deps f v d2 := by
  intro d1
  induction d1 with
  | zero =>
    intro d2 _ f v a ha
    obtain ⟨A, h1, _, _⟩ := gsdAux_append deps d2 f v
    rw [h1]
    exact List.mem_append_left A ha
  | succ d1 ih =>
    intro d2 hle f v a ha
    cases d2 with
    | zero => omega
    | succ d2 =>
      rw [gsdAux_succ] at ha
      rw [gsdAux_succ]
      by_cases hf : f.isEmpty
      · rw [if_pos hf] at ha ⊢
        exact ha
      · rw [if_neg hf] at ha ⊢
        exact ih d2 (by omega) _ _ a ha

/-- One more round either changes nothing or grows the visited list by one
node per round since the start. -/
theorem gsdAux_step_or_big (deps : List BundleDependencyRow) :
    ∀ (d : Nat) (f v : List String),
    gsdAux deps f v (d + 1) = gsdAux deps f v d ∨
      v.length + (d + 1) ≤ (gsdAux deps f v (d + 1)).length := by
  intro d
  induction d with
  | zero =>
    intro f v
    by_cases hf : f.isEmpty
    · left
      rw [gsdAux_succ, if_pos hf, gsdAux_zero]
    · obtain ⟨δ, h1, _, _⟩ := bfs_round_spec deps f v
      cases δ with
      | nil =>
        left
        rw [gsdAux_succ, if_neg hf, h1, gsdAux_zero, gsdAux_zero]
        simp
      | cons x δ2 =>
        right
        rw [gsdAux_succ, if_neg hf, h1]
        simp only [gsdAux_zero, List.length_append, List.length_cons]
        omega
  | succ d ih =>
    intro f v
    by_cases hf : f.isEmpty
    · left
      rw [gsdAux_succ, if_pos hf, gsdAux_succ, if_pos hf]
    · have hstep : ∀ e, gsdAux deps f v (e + 1) =
          gsdAux deps (bfs_round deps f v).1 (bfs_round deps f v).2 e := by
        intro e
        rw [gsdAux_succ, if_neg hf]
      obtain ⟨δ, h1, _, _⟩ := bfs_round_spec deps f v
      rcases ih (bfs_round deps f v).1 (bfs_round deps f v).2 with hcase | hcase
      · left
        rw [hstep (d + 1), hstep d, hcase]
      · cases δ with
        | nil =>
          left
          rw [hstep (d + 1), hstep d, h1]
          simp only [List.append_nil]
          rw [gsdAux_nil_frontier, gsdAux_nil_frontier]
        | cons x δ2 =>
          right
          rw [hstep (d + 1)]
          have hlen2 : v.length + 1 ≤ (bfs_round deps f v).2.length := by
            rw [h1]
            simp only [List.length_append, List.length_cons]
            omega
          omega

/-- Beyond `deps.length` rounds the walk is a fixed point. -/
theorem gsdAux_stable (deps : List BundleDependencyRow) (seeds : List String)
    (hnd : seeds.Nodup) :
    ∀ d, deps.length ≤ d →
      gsdAux deps seeds seeds d = gsdAux deps seeds seeds deps.length := by
  intro d
  induction d with
  | zero =>
    intro h
    have h0 : deps.length = 0 := by omega
    rw [h0]
  | succ d ih =>
    intro h
    rcases Nat.lt_or_ge d deps.length with h2 | h2
    · have h3 : deps.length = d + 1 := by omega
      rw [h3]
    · rcases gsdAux_step_or_big deps d seeds seeds with hcase | hcase
      · rw [hcase]
        exact ih h2
      · exfalso
        obtain ⟨A, h4, h5, h6⟩ := gsdAux_append deps (d + 1) seeds seeds
        have hnodup := h6 hnd
        have hAnd : A.Nodup := (List.nodup_append.mp hnodup).2.1
        have hAle : A.length ≤ deps.length := by
          have hcard : A.toFinset.card = A.length := List.toFinset_card_of_nodup hAnd
          have hsub : A.toFinset ⊆ (deps.map (fun x => x.child_uuid)).toFinset := by
            intro a ha
            exact List.mem_toFinset.mpr (h5 a (List.mem_toFinset.mp ha))
          have := Finset.card_le_card hsub
          have hle2 := List.toFinset_card_le (deps.map (fun x => x.child_uuid))
          rw [List.length_map] at hle2
          omega
        rw [h4] at hcase
        rw [List.length_append] at hcase
        omega

/-- C5: for every duplicate-free seed set, deeper walks of
`get_self_and_descendants` only grow the result; the result never lists a
node twice; and past `deps.length` rounds the walk is a fixed point — in
particular one more breadth-first round adds no new node. -/
theorem get_self_and_descendants_props (deps : List BundleDependencyRow)
    (seeds : List String) (hnd : seeds.Nodup) :
    (∀ d1 d2, d1 < d2 → ∀ u ∈ get_self_and_descendants deps seeds d1,
      u ∈ get_self_and_descendants deps seeds d2) ∧
    (∀ d, (get_self_and_descendants deps seeds d).Nodup) ∧
    (∀ d, deps.length ≤ d →
      get_self_and_descendants deps seeds d =
        get_self_and_descendants deps seeds deps.length) ∧
    get_self_and_descendants deps seeds (deps.length + 1) =
      get_self_and_descendants deps seeds deps.length := by
  refine ⟨?_, ?_, ?_, ?_⟩
  · intro d1 d2 hlt u hu
    exact gsdAux_mono deps d1 d2 (Nat.le_of_lt hlt) seeds seeds u hu
  · intro d
    obtain ⟨A, h1, _, h3⟩ := gsdAux_append deps d seeds seeds
    unfold get_self_and_descendants
    rw [h1]
    exact h3 hnd
  · intro d h
    exact gsdAux_stable deps seeds hnd d h
  · exact gsdAux_stable deps seeds hnd (deps.length + 1) (by omega)

/-- Witness for C5 on the three-edge dependency list. -/
theorem get_self_and_descendants_props_witness :
    (∀ d1 d2, d1 < d2 → ∀ u ∈ get_self_and_descendants exDeps ["a"] d1,
      u ∈ get_self_and_descendants exDeps ["a"] d2) ∧
    (∀ d, (get_self_and_descendants exDeps ["a"] d).Nodup) ∧
    (∀ d, exDeps.length ≤ d →
      get_self_and_descendants exDeps ["a"] d =
        get_self_and_descendants exDeps ["a"] exDeps.length) ∧
    get_self_and_descendants exDeps ["a"] (exDeps.length + 1) =
      get_self_and_descendants exDeps ["a"] exDeps.length :=
  get_self_and_descendants_props exDeps ["a"] (by decide)

/-- Witness for C10: the ownerless object of the dangling-group database,
queried anonymously. -/
theorem get_user_permissions_anonymous_ownerless_witness :
    get_user_permissions exDanglingDB exCtx none ["o1"] [] "o1" =
      GROUP_OBJECT_PERMISSION_ALL :=
  get_user_permissions_anonymous_ownerless exDanglingDB exCtx ["o1"] [] "o1"
    (by decide) (by decide)

/-- OFFSET and LIMIT return sublists. -/
theorem mem_applyOffsetLimit {α : Type} (lim : Option Int) (off : Int)
    (l : List α) (a : α) (h : a ∈ applyLimit lim (applyOffset off l)) : a ∈ l := by
  have h2 : a ∈ applyOffset off l := by
    cases lim with
    | none => exact h
    | some n =>
      simp only [applyLimit] at h
      by_cases hn : n < 0
      · rwa [if_pos hn] at h
      · rw [if_neg hn] at h
        exact List.take_subset _ _ h
  unfold applyOffset at h2
  exact List.drop_subset _ _ h2

/-- An element of a cross-product member list is none or a listed row. -/
theorem mem_optRows {α : Type} (used : Bool) (rows : List α) (x : Option α)
    (h : x ∈ optRows used rows) : x = none ∨ ∃ r ∈ rows, x = some r := by
  unfold optRows at h
  split at h
  · obtain ⟨r, hr, hx⟩ := List.mem_map.mp h
    exact Or.inr ⟨r, hr, hx.symm⟩
  · rcases List.mem_singleton.mp h with rfl
    exact Or.inl rfl

/-- An environment built for a bundle row carries that row, and its joined
permission row (when present) is a row of the permission table. -/
theorem envsFor_spec (db : DB) (u : Uses) (b : BundleRow) (e : Env)
    (he : e ∈ envsFor db u b) :
    e.b = b ∧ (∀ p, e.gbp = some p → p ∈ db.group_bundle_permissions) := by
  unfold envsFor at he
  obtain ⟨d, _, he2⟩ := List.mem_flatMap.mp he
  obtain ⟨it, _, he3⟩ := List.mem_flatMap.mp he2
  obtain ⟨m, _, he4⟩ := List.mem_flatMap.mp he3
  obtain ⟨p, hp, he5⟩ := List.mem_map.mp he4
  constructor
  · rw [← he5]
  · intro p2 hp2
    rw [← he5] at hp2
    simp only [] at hp2
    rcases mem_optRows u.gbp db.group_bundle_permissions p hp with hnone | ⟨r, hr, hsome⟩
    · rw [hnone] at hp2
      cases hp2
    · rw [hsome] at hp2
      cases hp2
      exact hr

/-- Sorted satisfying environments are satisfying environments. -/
theorem mem_search_sorted_envs (db : DB) (ctx : ModelCtx)
    (user_id : Option String) (st : LoopState) (e : Env)
    (he : e ∈ search_sorted_envs db ctx user_id st) :
    e ∈ searchEnvs db (search_clause db ctx user_id st) := by
  unfold search_sorted_envs at he
  cases hsk : st.sort_key with
  | none =>
    rw [hsk] at he
    exact he
  | some cd =>
    rw [hsk] at he
    exact (mem_sortByKey _ _ _).mp he

/-- C1: for a non-root principal, every uuid in a uuid-list search result
names a bundle row the principal can access: owned by the principal, or
covered by a permission row of level at least READ held by the public group
or by a group the principal is a member of. -/
theorem search_bundle_uuids_access_scoped (db : DB) (ctx : ModelCtx)
    (user_id : Option String) (ws : Option String) (keywords : List String)
    (l : List String) (u : String)
    (hroot : user_id ≠ ctx.root_user_id)
    (hok : search_bundle_uuids db ctx user_id ws keywords =
      .ok (SearchResult.uuids l))
    (hmem : u ∈ l) :
    ∃ b ∈ db.bundles, b.uuid = u ∧
      (b.owner_id = user_id ∨
       ∃ p ∈ db.group_bundle_permissions, p.object_uuid = b.uuid ∧
         GROUP_OBJECT_PERMISSION_READ ≤ p.permission ∧
         (p.group_uuid = ctx.public_group_uuid ∨
          ∃ g ∈ db.user_groups, some g.user_id = user_id ∧
            g.group_uuid = p.group_uuid)) := by
  unfold search_bundle_uuids at hok
  simp only [bind, Except.bind] at hok
  cases hfold : keywords.foldlM (processKeyword db) ({} : LoopState) with
  | error e =>
    rw [hfold] at hok
    exact absurd hok (by simp)
  | ok st =>
    rw [hfold] at hok
    unfold search_finish at hok
    cases hsum : st.sum_key with
    | some c =>
      simp only [hsum] at hok
      split at hok
      · exact absurd hok (by simp)
      · split at hok
        · exact absurd hok (by simp)
        · exact absurd hok (by simp)
    | none =>
      simp only [hsum] at hok
      split at hok
      · exact absurd hok (by simp)
      · have hl : search_uuid_rows db ctx user_id st = l := by
          have := hok
          simp only [Except.ok.injEq, SearchResult.uuids.injEq] at this
          exact this
        rw [← hl] at hmem
        have h2 : u ∈ (search_sorted_envs db ctx user_id st).map
            (fun e => e.b.uuid) := by
          have h3 := mem_applyOffsetLimit st.limit st.offset _ u hmem
          exact (mem_dedupKeys _ _).mp h3
        obtain ⟨e, he, heu⟩ := List.mem_map.mp h2
        have he2 := mem_search_sorted_envs db ctx user_id st e he
        unfold searchEnvs at he2
        obtain ⟨b, hb, he3⟩ := List.mem_flatMap.mp he2
        obtain ⟨he4, hpred⟩ := List.mem_filter.mp he3
        obtain ⟨heb, hgbp⟩ := envsFor_spec db _ b e he4
        have haccess : (access_clause db ctx user_id).pred e = true := by
          unfold search_clause at hpred
          rw [if_pos hroot] at hpred
          unfold andAll at hpred
          simp only [List.all_cons, List.all_nil, Bool.and_true,
            Bool.and_eq_true] at hpred
          exact hpred.2
        unfold access_clause orAll at haccess
        simp only [List.any_cons, List.any_nil, Bool.or_false,
          Bool.or_eq_true] at haccess
        rcases haccess with howner | hgroup
        · refine ⟨e.b, heb ▸ hb, heu, Or.inl ?_⟩
          simpa using howner
        · cases hg : e.gbp with
          | none =>
            rw [hg] at hgroup
            simp at hgroup
          | some p =>
            rw [hg] at hgroup
            simp only [Bool.and_eq_true, Bool.or_eq_true, beq_iff_eq,
              decide_eq_true_eq] at hgroup
            obtain ⟨⟨hobj, hgrp⟩, hperm⟩ := hgroup
            refine ⟨e.b, heb ▸ hb, heu, Or.inr ⟨p, hgbp p hg, hobj, hperm, ?_⟩⟩
            rcases hgrp with hpub | hmem2
            · exact Or.inl hpub
            · right
              have hmem3 : p.group_uuid ∈
                  (db.user_groups.filter (fun r => some r.user_id == user_id)).map
                    (fun r => r.group_uuid) := by
                simpa using hmem2
              obtain ⟨g, hgf, hgeq⟩ := List.mem_map.mp hmem3
              obtain ⟨hgmem, hgid⟩ := List.mem_filter.mp hgf
              exact ⟨g, hgmem, by simpa using hgid, hgeq⟩

/-- Witness for C1: a keyword-free search by the non-root member `u`, which
returns the owned bundle and the group-readable bundle. -/
theorem search_bundle_uuids_access_scoped_witness :
    ∃ b ∈ exDB.bundles, b.uuid = "0xbbb" ∧
      (b.owner_id = some "u" ∨
       ∃ p ∈ exDB.group_bundle_permissions, p.object_uuid = b.uuid ∧
         GROUP_OBJECT_PERMISSION_READ ≤ p.permission ∧
         (p.group_uuid = exCtx.public_group_uuid ∨
          ∃ g ∈ exDB.user_groups, some g.user_id = some "u" ∧
            g.group_uuid = p.group_uuid)) :=
  search_bundle_uuids_access_scoped exDB exCtx (some "u") none []
    ["0xaaa", "0xbbb"] "0xbbb" (by decide) (by decide) (by decide)

/-- Witness for C7 (amended) at the concrete deletion of bundle `A`. -/
theorem delete_bundles_no_orphans_witness :
    (∀ p ∈ exDelAfter.group_bundle_permissions, p.object_uuid ∉ ["A"]) ∧
    (∀ it ∈ exDelAfter.worksheet_items, ∀ u, it.bundle_uuid = some u → u ∉ ["A"]) ∧
    (∀ m ∈ exDelAfter.bundle_metadata, m.bundle_uuid ∉ ["A"]) ∧
    (∀ d ∈ exDelAfter.bundle_dependencies, d.child_uuid ∉ ["A"]) ∧
    (∀ b ∈ exDelAfter.bundles, b.uuid ∉ ["A"]) ∧
    (delete_bundles_dependents exDelDB ["A"]).bundles = exDelDB.bundles :=
  delete_bundles_no_orphans exDelDB ["A"] exDelAfter (by decide)

end BundleModel
